import Mathlib

/-!
Verification of the django-helpdesk ticket workflow against its design
specification.  The Python source (`helpdesk/models.py`,
`helpdesk/views/staff.py`) is shallowly embedded: ORM rows become Lean
structures, the `save` methods and view functions become pure functions on
those structures, and database lookups become explicit finite environments.
Machine integers are modelled as `Nat`/`Int` (no overflow is relevant here),
fallible code returns `Option`/`Except`, and wall-clock time is an explicit
`now : Nat` parameter.
-/

namespace Helpdesk

/-- Status constants from `Ticket` in `models.py`. -/
def OPEN_STATUS : Nat := 1

/-- Status constant `REOPENED_STATUS = 2`. -/
def REOPENED_STATUS : Nat := 2

/-- Status constant `RESOLVED_STATUS = 3`. -/
def RESOLVED_STATUS : Nat := 3

/-- Status constant `CLOSED_STATUS = 4`. -/
def CLOSED_STATUS : Nat := 4

/-- Status constant `DUPLICATE_STATUS = 5`. -/
def DUPLICATE_STATUS : Nat := 5

/-- The `get_status_display()` strings from `Ticket.STATUS_CHOICES`. -/
def statusDisplay : Nat → String
  | 1 => "Open"
  | 2 => "Reopened"
  | 3 => "Resolved"
  | 4 => "Closed"
  | 5 => "Duplicate"
  | _ => ""

/-- Shallow embedding of a `Ticket` row (`models.py`).  Related objects
(`assigned_to`, `customer`, `site`, ...) are represented by their primary
keys; nullable columns are `Option`.  Timestamps are abstract `Nat` instants.
Fields not touched by any verified operation (queue, description, on-hold
flag, ...) are omitted. -/
structure UTicket where
  id : Option Nat
  title : String
  status : Nat
  priority : Nat
  due_date : Option Nat
  assigned_to : Option Nat
  customer_contact : Option Nat
  customer : Option Nat
  site : Option Nat
  customer_product : Option Nat
  category : Option Nat
  type : Option Nat
  billing : Option Nat
  submitter_email : Option String
  resolution : Option String
  resolved : Option Nat
  closed : Option Nat
  created : Nat
  modified : Nat
  merged_to : Option Nat
  deriving Repr, DecidableEq

/-- Embedding of `Ticket.save` from `models.py` (lines 814-856), restricted to
the in-row effects: `created` on first save, the `priority` default, the
`modified` refresh, and the resolved/closed timestamp bookkeeping (the exact
`if`/`elif` chain of the source).  The `SimpleUserMail` side effects touch
other tables and are not part of any claim, so they are not modelled; the
merged-ticket override that follows `super().save()` is modelled separately
by `propagateMerge`. -/
def ticketSave (t : UTicket) (now : Nat) : UTicket :=
  let t := if t.id = none then { t with created := now } else t
  let t := if t.priority = 0 then { t with priority := 3 } else t
  let t := { t with modified := now }
  if t.status = RESOLVED_STATUS ∧ t.resolved = none then
    { t with resolved := some now, closed := none }
  else if (t.status = CLOSED_STATUS ∨ t.status = DUPLICATE_STATUS) ∧ t.closed = none then
    { t with closed := some now }
  else if (t.status = OPEN_STATUS ∨ t.status = REOPENED_STATUS) ∧
      (t.closed ≠ none ∨ t.resolved ≠ none) then
    { t with closed := none, resolved := none }
  else
    t

/-- The field override applied to each merged ticket by the
`self.merged_tickets.update(...)` call at the end of `Ticket.save`. -/
def overrideFromTarget (target t : UTicket) : UTicket :=
  { t with
    assigned_to := target.assigned_to
    category := target.category
    type := target.type
    billing := target.billing
    customer := target.customer
    site := target.site
    customer_product := target.customer_product }

/-- Embedding of the merge propagation at the end of `Ticket.save`
(`models.py` lines 858-868): every ticket whose `merged_to` foreign key
points at the saved ticket has its classification fields overwritten with
the target's values.  `store` is the list of all ticket rows. -/
def propagateMerge (targetId : Nat) (target : UTicket) (store : List UTicket) :
    List UTicket :=
  store.map fun t =>
    if t.merged_to = some targetId then overrideFromTarget target t else t

/-- Specification-side restatement of the timestamp rules, written from the
amended wording: entering Resolved sets `resolved := now` and clears `closed`
only when `resolved` was unset; entering Closed or Duplicate sets `closed`
(if unset) and leaves `resolved` untouched; entering Open or Reopened clears
both; otherwise both timestamps are kept. -/
def expectedTimestamps (t : UTicket) (now : Nat) : Option Nat × Option Nat :=
  if t.status = RESOLVED_STATUS then
    if t.resolved = none then (some now, none) else (t.resolved, t.closed)
  else if t.status = CLOSED_STATUS ∨ t.status = DUPLICATE_STATUS then
    if t.closed = none then (t.resolved, some now) else (t.resolved, t.closed)
  else if t.status = OPEN_STATUS ∨ t.status = REOPENED_STATUS then
    (none, none)
  else
    (t.resolved, t.closed)

/-- A neutral saved ticket (status Open, defaults everywhere) used as the
base of concrete test inputs throughout. -/
def baseTicket : UTicket :=
  { id := some 1
    title := "t"
    status := OPEN_STATUS
    priority := 3
    due_date := none
    assigned_to := none
    customer_contact := none
    customer := none
    site := none
    customer_product := none
    category := none
    type := none
    billing := none
    submitter_email := none
    resolution := none
    resolved := none
    closed := none
    created := 1
    modified := 1
    merged_to := none }

/-- Left curly brace character. -/
def lb : Char := Char.ofNat 123

/-- Right curly brace character. -/
def rb : Char := Char.ofNat 125

/-- The two-character template-directive opener. -/
def tagOpen : List Char := [lb, '%']

/-- The two-character template-directive closer. -/
def tagClose : List Char := ['%', rb]

/-- First placeholder marker used by `update_ticket` while neutralizing a
comment. -/
def M1 : List Char := "X-HELPDESK-COMMENT-VERBATIM".data

/-- Second placeholder marker used by `update_ticket`. -/
def M2 : List Char := "X-HELPDESK-COMMENT-ENDVERBATIM".data

/-- Replacement text for `M1`: a directive opener wrapped in an opening
verbatim tag. -/
def verbatimIns : List Char := tagOpen ++ " verbatim ".data ++ tagClose ++ tagOpen

/-- Replacement text for `M2`: a directive closer followed by a closing
verbatim tag. -/
def endverbatimIns : List Char := tagClose ++ tagOpen ++ " endverbatim ".data ++ tagClose

/-- Worker for `replaceAll`: left-to-right, non-overlapping replacement of
`pat` by `rep`, as Python's `str.replace`.  `skip` counts characters of an
already-replaced occurrence still to be dropped. -/
def replAux (pat rep : List Char) : List Char → Nat → List Char
  | [], _ => []
  | _ :: rest, skip + 1 => replAux pat rep rest skip
  | c :: rest, 0 =>
    if pat.isPrefixOf (c :: rest) then rep ++ replAux pat rep rest (pat.length - 1)
    else c :: replAux pat rep rest 0

/-- Python's `str.replace(pat, rep)` on character lists (for nonempty `pat`). -/
def replaceAll (pat rep l : List Char) : List Char := replAux pat rep l 0

/-- The two-stage neutralization of `update_ticket` (`views/staff.py` lines
624-630): every directive opener becomes `M1` and every closer `M2`, then
`M1` becomes an opener wrapped in a verbatim tag and `M2` a closer followed
by an endverbatim tag. -/
def neutralize (l : List Char) : List Char :=
  replaceAll M2 endverbatimIns
    (replaceAll M1 verbatimIns
      (replaceAll tagClose M2
        (replaceAll tagOpen M1 l)))

/-- Strip leading and trailing whitespace, as Python's `str.strip()`. -/
def stripWs (l : List Char) : List Char :=
  ((l.dropWhile Char.isWhitespace).reverse.dropWhile Char.isWhitespace).reverse

/-- Model of the Django template engine on block-tag syntax, fused
lexer/parser (`django.template`, an external collaborator of the update
workflow).  `verb` is the verbatim-mode flag; the second argument is `some
acc` while scanning the inside of a directive whose content so far is `acc`.
Behaviour modelled from the engine's documented semantics: a directive
runs to the nearest closer; in normal mode the only tag this pipeline can
produce is `verbatim` (any other tag name is an error, yielding `none`); in
verbatim mode tags other than `endverbatim` are reproduced literally;
an unterminated directive is plain text, but reaching the end of input in
verbatim mode is an unclosed-tag error.  Variable and comment syntax
(double-brace forms) is outside the claim and not modelled. -/
def djA : Bool → Option (List Char) → List Char → Option (List Char)
  | verb, none, [] => if verb then none else some []
  | verb, some acc, [] => if verb then none else some (lb :: '%' :: acc)
  | verb, none, [c] => if verb then none else some [c]
  | verb, some acc, [c] => if verb then none else some (lb :: '%' :: acc ++ [c])
  | verb, none, a :: b :: rest =>
    if a = lb ∧ b = '%' then djA verb (some []) rest
    else (djA verb none (b :: rest)).map (a :: ·)
  | verb, some acc, a :: b :: rest =>
    if a = '%' ∧ b = rb then
      if verb then
        if stripWs acc = "endverbatim".data then djA false none rest
        else (djA true none rest).map fun out => lb :: '%' :: (acc ++ '%' :: rb :: out)
      else
        if stripWs acc = "verbatim".data then djA true none rest
        else none
    else
      djA verb (some (acc ++ [a])) (b :: rest)

/-- Rendering of a follow-up comment by `update_ticket`: neutralize the raw
comment, then run it through the template engine.  `none` models an
uncaught template error aborting the request. -/
def renderCommentL (comment : List Char) : Option (List Char) :=
  djA false none (neutralize comment)

/-- A comment decomposed into literal text and complete directives; the flat
string of `Seg.dir s` is an opener, the directive content, and a closer. -/
inductive Seg where
  | plain (s : List Char)
  | dir (s : List Char)
  deriving Repr, DecidableEq

/-- Flatten a segment back to its raw characters. -/
def Seg.flat : Seg → List Char
  | .plain s => s
  | .dir s => lb :: '%' :: (s ++ ['%', rb])

/-- Flatten a segment list to the raw comment string. -/
def segsFlat (l : List Seg) : List Char := (l.map Seg.flat).flatten

/-- Ordinary text characters: not a brace, not a percent sign, and not the
marker sentinel letter X (so that the text cannot collide with the
placeholder markers). -/
def safeChar (c : Char) : Bool :=
  !(c = lb) && !(c = rb) && !(c = '%') && !(c = 'X')

/-- Well-formedness of one segment: ordinary characters only, and a
directive must not be an endverbatim tag of its own. -/
def SegWF : Seg → Bool
  | .plain s => s.all safeChar
  | .dir s => s.all safeChar && !(stripWs s = "endverbatim".data)

/-- Well-formedness of a segment list. -/
def SegsWF (l : List Seg) : Bool := l.all SegWF

/-- Segment shape after replacing directive openers with `M1`. -/
def nflat1 : Seg → List Char
  | .plain s => s
  | .dir s => M1 ++ (s ++ tagClose)

/-- Segment shape after also replacing directive closers with `M2`. -/
def nflat2 : Seg → List Char
  | .plain s => s
  | .dir s => M1 ++ (s ++ M2)

/-- Segment shape after expanding `M1`. -/
def nflat3 : Seg → List Char
  | .plain s => s
  | .dir s => verbatimIns ++ (s ++ M2)

/-- Fully neutralized segment shape: the directive is wrapped in a verbatim
block. -/
def nflat : Seg → List Char
  | .plain s => s
  | .dir s => verbatimIns ++ (s ++ endverbatimIns)

/-- Database environment of `update_ticket`: existing row ids per table,
human-readable renderings (`str(...)`/`get_username()`), per-user
notification preferences (`usersettings_helpdesk.settings`), the resolved
e-mail addresses of the ticket's CC rows, and the queue's notification
fields. -/
structure Db where
  users : List Nat
  userName : Nat → String
  userStr : Nat → String
  userEmail : Nat → Option String
  emailOnAssign : Nat → Bool
  emailOnChange : Nat → Bool
  customers : List Nat
  customerStr : Nat → String
  sites : List Nat
  siteStr : Nat → String
  products : List Nat
  productStr : Nat → String
  ccs : List String
  queueUpdatedCc : Option String

/-- Raw request fields of one Update Workflow invocation, after the numeric
conversions at the top of `update_ticket`: `none` models an absent POST
field (for `owner` the view itself uses the sentinel `-1`). -/
structure UParams where
  hasFiles : Bool
  comment : String
  new_status : Option Nat
  title : String
  public : Bool
  owner : Int
  priority : Option Nat
  due_date : Option Nat
  customer_contact_id : Option Nat
  customer_id : Option Nat
  site_id : Option Nat
  customer_product_id : Option Nat
  deriving Repr, DecidableEq

/-- The FollowUp row produced by one invocation. -/
structure FollowUpRec where
  title : String
  comment : String
  public : Bool
  new_status : Option Nat
  user : Option Nat
  deriving Repr, DecidableEq

/-- One TicketChange audit row. -/
structure TicketChangeRec where
  field : String
  old_value : String
  new_value : String
  deriving Repr, DecidableEq

/-- One dispatched notification: template key and resolved recipient
address. -/
structure Mail where
  template : String
  recipient : String
  deriving Repr, DecidableEq

/-- Result of one Update Workflow invocation: the documented no-op
short-circuit, an uncaught exception (unknown owner id or template error),
or the persisted ticket together with the created FollowUp, the TicketChange
rows, the dispatched notifications and the reassignment flag. -/
inductive UpdateOutcome where
  | noChanges
  | error
  | updated (t : UTicket) (f : FollowUpRec) (changes : List TicketChangeRec)
      (mails : List Mail) (reassigned : Bool)
  deriving Repr, DecidableEq

/-- Projection of the dispatched mails of an `updated` outcome. -/
def UpdateOutcome.mailsOf : UpdateOutcome → Option (List Mail)
  | .updated _ _ _ ms _ => some ms
  | _ => none

/-- Model of `try: Model.objects.get(id=i) except DoesNotExist: None` against
the id table `tbl` (also applied to `id=None`). -/
def lookupIn (tbl : List Nat) : Option Nat → Option Nat
  | some x => if x ∈ tbl then some x else none
  | none => none

/-- Render an optional related row: `str(obj)` or the `Unassigned` label. -/
def strOpt (f : Nat → String) : Option Nat → String
  | some x => f x
  | none => "Unassigned"

/-- Rendering of a due date in change rows (`date(..., DATETIME_FORMAT)` or
the French `not set` label); the date formatting itself is abstracted to an
injective rendering. -/
def fmtDue : Option Nat → String
  | some d => "date " ++ toString d
  | none => "Non définie"

/-- The owner disjunct of the `no_changes` predicate (`views/staff.py` lines
611-612): `-1` is the omitted sentinel, `0` compares against an empty
assignee, any other id is fetched (`User.objects.get`, an uncaught
`DoesNotExist` for an unknown or negative id) and compared with the current
assignee. -/
def ownerNcCheck (db : Db) (t : UTicket) (owner : Int) : Except Unit Bool :=
  if owner = -1 then .ok true
  else if owner = 0 then .ok t.assigned_to.isNone
  else if 0 < owner ∧ owner.toNat ∈ db.users then
    .ok (t.assigned_to == some owner.toNat)
  else .error ()

/-- The `no_changes` predicate of `update_ticket` (lines 601-613), with the
effective (post-default) status and priority values. -/
def noChangesCheck (t : UTicket) (p : UParams) (new_status priority : Nat)
    (ownerEq : Bool) : Bool :=
  !p.hasFiles && p.comment == "" && new_status == t.status
    && p.title == t.title && priority == t.priority
    && p.due_date == t.due_date
    && p.customer_contact_id == t.customer_contact
    && p.customer_id == t.customer && p.site_id == t.site
    && p.customer_product_id == t.customer_product && ownerEq

/-- View an optional user id as an optional integer, for comparison with the
integer owner field of the request. -/
def intOfNatOpt : Option Nat → Option Int
  | some a => some (a : Int)
  | none => none

/-- The owner-assignment block of `update_ticket` (lines 633-657): the `-1`
sentinel is first replaced by the current assignee's id; a nonzero id
different from the current assignee is fetched (uncaught `DoesNotExist` when
unknown) and assigned, setting the follow-up title and the reassigned flag;
`0` unassigns.  Returns (follow-up title so far, new assignee, reassigned). -/
def ownerBlock (db : Db) (t : UTicket) (ownerRaw : Int) :
    Except Unit (Option String × Option Nat × Bool) :=
  let owner : Int := if ownerRaw = -1 ∧ t.assigned_to ≠ none
    then ((t.assigned_to.getD 0 : Nat) : Int) else ownerRaw
  if owner ≠ -1 then
    if owner ≠ 0 ∧ intOfNatOpt t.assigned_to ≠ some owner then
      if 0 < owner ∧ owner.toNat ∈ db.users then
        .ok (some ("Assigned to " ++ db.userName owner.toNat),
          some owner.toNat, true)
      else .error ()
    else if owner = 0 ∧ t.assigned_to ≠ none then
      .ok (some "Unassigned", none, false)
    else .ok (none, t.assigned_to, false)
  else .ok (none, t.assigned_to, false)

/-- The change-row section of `update_ticket` (lines 681-775): for each
tracked field whose proposed value differs from the value currently on the
ticket object, one TicketChange row is created (old value first) and the new
value is applied in memory; relational ids are resolved with a fallback to
`None` for unknown ids.  `t` is the ticket after the owner and status
blocks; `old_status`/`old_status_str`/`oldOwner` are the pre-block
snapshots. -/
def buildRows (db : Db) (t : UTicket) (new_status old_status : Nat)
    (old_status_str : String) (oldOwner : Option Nat) (titleP : String)
    (priorityP : Nat) (dueP : Option Nat) (ccP cuP siP cpP : Option Nat) :
    List TicketChangeRec × UTicket :=
  let st := if titleP ≠ "" ∧ titleP ≠ t.title
    then ([(⟨"Title", t.title, titleP⟩ : TicketChangeRec)],
      { t with title := titleP })
    else ([], t)
  let t := st.2
  let r2 := if new_status ≠ old_status
    then [(⟨"Status", old_status_str, statusDisplay t.status⟩ : TicketChangeRec)]
    else []
  let r3 := if t.assigned_to ≠ oldOwner
    then [(⟨"Owner", strOpt db.userStr oldOwner,
      strOpt db.userStr t.assigned_to⟩ : TicketChangeRec)]
    else []
  let sp := if priorityP ≠ t.priority
    then ([(⟨"Priority", toString t.priority, toString priorityP⟩ :
      TicketChangeRec)], { t with priority := priorityP })
    else ([], t)
  let t := sp.2
  let sd := if dueP ≠ t.due_date
    then ([(⟨"Due on", fmtDue t.due_date, fmtDue dueP⟩ : TicketChangeRec)],
      { t with due_date := dueP })
    else ([], t)
  let t := sd.2
  let scc := if ccP ≠ t.customer_contact then
      ([(⟨"Contact client", strOpt db.userStr t.customer_contact,
        strOpt db.userStr (lookupIn db.users ccP)⟩ : TicketChangeRec)],
        { t with customer_contact := lookupIn db.users ccP })
    else ([], t)
  let t := scc.2
  let scu := if cuP ≠ t.customer then
      ([(⟨"Client", strOpt db.customerStr t.customer,
        strOpt db.customerStr (lookupIn db.customers cuP)⟩ : TicketChangeRec)],
        { t with customer := lookupIn db.customers cuP })
    else ([], t)
  let t := scu.2
  let ssi := if siP ≠ t.site then
      ([(⟨"Site", strOpt db.siteStr t.site,
        strOpt db.siteStr (lookupIn db.sites siP)⟩ : TicketChangeRec)],
        { t with site := lookupIn db.sites siP })
    else ([], t)
  let t := ssi.2
  let scp := if cpP ≠ t.customer_product then
      ([(⟨"Produit client", strOpt db.productStr t.customer_product,
        strOpt db.productStr (lookupIn db.products cpP)⟩ : TicketChangeRec)],
        { t with customer_product := lookupIn db.products cpP })
    else ([], t)
  (st.1 ++ r2 ++ r3 ++ sp.1 ++ sd.1 ++ scc.1 ++ scu.1 ++ ssi.1 ++ scp.1,
    scp.2)

/-- Loop over the ticket's CC rows (lines 816-827): a CC whose resolved
address was already notified within this invocation is skipped, otherwise
one templated mail is sent and the address recorded. -/
def ccFanout (tmpl : String) : List String → List String → List Mail × List String
  | [], sent => ([], sent)
  | e :: rest, sent =>
    if e ∈ sent then ccFanout tmpl rest sent
    else
      let res := ccFanout tmpl rest (sent ++ [e])
      ((⟨tmpl ++ "cc", e⟩ : Mail) :: res.1, res.2)

/-- Submitter and CC-list stage of the fan-out (lines 805-827): active when
the follow-up is public with a comment or a terminal status; the submitter
is notified first, then each CC row not yet notified.  Returns the mails and
the `messages_sent_to` accumulator. -/
def submitterStage (db : Db) (publicF : Bool) (comment : String)
    (submitter : Option String) (fnew : Option Nat) :
    List Mail × List String :=
  let tmplBase := if fnew = some RESOLVED_STATUS then "resolved_"
    else if fnew = some CLOSED_STATUS then "closed_" else "updated_"
  if publicF ∧ (comment ≠ "" ∨ fnew = some RESOLVED_STATUS ∨
      fnew = some CLOSED_STATUS) then
    let m0 : List Mail × List String := match submitter with
      | some em => ([⟨tmplBase ++ "submitter", em⟩], [em])
      | none => ([], [])
    let res := ccFanout tmplBase db.ccs m0.2
    (m0.1 ++ res.1, res.2)
  else (([] : List Mail), ([] : List String))

/-- Assignee stage of the fan-out (lines 829-866): notify the assignee when
one exists, differs from the acting identity, has an address not yet
notified, and the preference expression of the source (verbatim, including
its precedence) allows it. -/
def staffStage (db : Db) (reqUser : Option Nat) (assigned : Option Nat)
    (fnew : Option Nat) (reassigned : Bool) (ms : List Mail × List String) :
    List Mail × List String :=
  match assigned with
  | some a =>
    match db.userEmail a with
    | some em =>
      if reqUser ≠ some a ∧ em ∉ ms.2 then
        let tmplStaff := if reassigned then "assigned_owner"
          else if fnew = some RESOLVED_STATUS then "resolved_owner"
          else if fnew = some CLOSED_STATUS then "closed_owner"
          else "updated_owner"
        if (¬reassigned ∨ (reassigned ∧ db.emailOnAssign a = true)) ∨
            (¬reassigned ∧ db.emailOnChange a = true) then
          (ms.1 ++ [(⟨tmplStaff, em⟩ : Mail)], ms.2 ++ [em])
        else ms
      else ms
    | none => ms
  | none => ms

/-- Queue-CC stage of the fan-out (lines 868-885): one mail to the queue's
configured address unless it was already notified. -/
def queueStage (db : Db) (fnew : Option Nat) (reassigned : Bool)
    (ms : List Mail × List String) : List Mail :=
  match db.queueUpdatedCc with
  | some qcc =>
    if qcc ∉ ms.2 then
      let tmplQ := if reassigned then "assigned_cc"
        else if fnew = some RESOLVED_STATUS then "resolved_cc"
        else if fnew = some CLOSED_STATUS then "closed_cc"
        else "updated_cc"
      ms.1 ++ [(⟨tmplQ, qcc⟩ : Mail)]
    else ms.1
  | none => ms.1

/-- Notification fan-out of `update_ticket` (lines 781-878): the three
audiences in source order, threading the `messages_sent_to` accumulator. -/
def fanout (db : Db) (reqUser : Option Nat) (publicF : Bool) (comment : String)
    (submitter : Option String) (assigned : Option Nat) (fnew : Option Nat)
    (reassigned : Bool) : List Mail :=
  queueStage db fnew reassigned
    (staffStage db reqUser assigned fnew reassigned
      (submitterStage db publicF comment submitter fnew))

/-- Embedding of `update_ticket` (`views/staff.py` lines 573-887).  In
order: the `no_changes` short-circuit, comment neutralization and rendering
(an engine error aborts the request), the owner block, the status block with
its mid-workflow `ticket.save()`, the follow-up record (saving it re-saves
the ticket through `FollowUp.save`), the change rows with in-memory field
application, the resolution update, the notification fan-out, and the final
`ticket.save()`.  Attachments are abstracted to the `hasFiles` flag, the
auto-subscribe step touches only CC rows and is not modelled, and the same
instant `now` stands for the few `timezone.now()` calls of one request. -/
def updateTicket (db : Db) (allowNonStaff : Bool) (reqUser : Option Nat)
    (isStaff : Bool) (t : UTicket) (p : UParams) (now : Nat) : UpdateOutcome :=
  let new_status := p.new_status.getD t.status
  let priority := p.priority.getD t.priority
  match ownerNcCheck db t p.owner with
  | .error _ => .error
  | .ok ownerEq =>
    if noChangesCheck t p new_status priority ownerEq then .noChanges
    else
      match renderCommentL p.comment.data with
      | none => .error
      | some commentL =>
        let comment : String := ⟨commentL⟩
        match ownerBlock db t p.owner with
        | .error _ => .error
        | .ok fb =>
          let t1 := { t with assigned_to := fb.2.1 }
          let statusChanged := new_status ≠ t.status
          let t2 := if statusChanged
            then ticketSave { t1 with status := new_status } now else t1
          let fnew : Option Nat := if statusChanged then some new_status else none
          let ftitle1 : Option String :=
            if statusChanged then
              some (match fb.1 with
                | some ti => ti ++ " and " ++ statusDisplay new_status
                | none => statusDisplay new_status)
            else fb.1
          let ftitle := match ftitle1 with
            | some ti => ti
            | none => if comment ≠ "" then "Comment" else "Updated"
          let f : FollowUpRec :=
            { title := ftitle, comment := comment, public := p.public,
              new_status := fnew,
              user := if isStaff ∨ allowNonStaff then reqUser else none }
          let t3 := ticketSave t2 now
          let br := buildRows db t3 new_status t.status (statusDisplay t.status)
            t.assigned_to p.title priority p.due_date p.customer_contact_id
            p.customer_id p.site_id p.customer_product_id
          let t4 := br.2
          let t5 := if new_status = RESOLVED_STATUS ∨ new_status = CLOSED_STATUS
            then
              if new_status = RESOLVED_STATUS ∨ t4.resolution = none
                then { t4 with resolution := some comment } else t4
            else t4
          let mails := fanout db reqUser p.public comment t5.submitter_email
            t5.assigned_to fnew fb.2.2
          .updated (ticketSave t5 now) f br.1 mails fb.2.2

/-- What the owner sentinel must leave untouched: on an `updated` outcome the
assignee is unchanged, the reassigned flag is false, no Owner change row
exists, and the follow-up title is not an assignment title. -/
def ownerUntouched (t : UTicket) : UpdateOutcome → Prop
  | .updated t' f ch _ rs =>
      t'.assigned_to = t.assigned_to ∧ rs = false ∧
      (∀ c ∈ ch, c.field ≠ "Owner") ∧
      ¬ (("Assigned to ".isPrefixOf f.title) = true) ∧ f.title ≠ "Unassigned"
  | _ => True

/-- A small concrete environment for witnesses and counterexamples: two
users, user 7 reachable at one address with both notification preferences
disabled. -/
def testDb : Db :=
  { users := [1, 7], userName := fun n => "u" ++ toString n,
    userStr := fun n => "U" ++ toString n,
    userEmail := fun n => if n = 7 then some "a@x" else none,
    emailOnAssign := fun _ => false, emailOnChange := fun _ => false,
    customers := [], customerStr := fun _ => "",
    sites := [], siteStr := fun _ => "",
    products := [], productStr := fun _ => "",
    ccs := [], queueUpdatedCc := none }

/-- A request that proposes no change at all against `baseTicket`. -/
def noopParams : UParams :=
  { hasFiles := false, comment := "", new_status := none, title := "t",
    public := false, owner := -1, priority := none, due_date := none,
    customer_contact_id := none, customer_id := none, site_id := none,
    customer_product_id := none }

/-- Double-quote character. -/
def qc : Char := Char.ofNat 34

/-- Backslash character. -/
def bsc : Char := Char.ofNat 92

/-- Apostrophe character. -/
def apos : Char := Char.ofNat 39

/-- Decimal digit test. -/
def isDig (c : Char) : Bool := 48 ≤ c.toNat && c.toNat ≤ 57

/-- The character of a decimal digit. -/
def digitChar (n : Nat) : Char := Char.ofNat (48 + n)

/-- Decimal digits of a natural number, least significant first. -/
def natDigitsRev (n : Nat) : List Char :=
  if h : n < 10 then [digitChar n]
  else digitChar (n % 10) :: natDigitsRev (n / 10)
  termination_by n
  decreasing_by omega

/-- Decimal digits of a natural number, as printed. -/
def natDigits (n : Nat) : List Char := (natDigitsRev n).reverse

/-- Decimal rendering of an integer, as printed by the JSON encoder. -/
def intRepr (i : Int) : List Char :=
  if i < 0 then '-' :: natDigits (-i).toNat else natDigits i.toNat

/-- Maximal-munch digit scanner: accumulates leading digits. -/
def parseNatAux : Nat → List Char → Nat × List Char
  | acc, c :: rest =>
    if isDig c then parseNatAux (acc * 10 + (c.toNat - 48)) rest
    else (acc, c :: rest)
  | acc, [] => (acc, [])

/-- Parse a nonempty digit run. -/
def parseNat : List Char → Option (Nat × List Char)
  | c :: rest => if isDig c then some (parseNatAux 0 (c :: rest)) else none
  | [] => none

/-- Parse an optionally negated decimal integer. -/
def parseInt (l : List Char) : Option (Int × List Char) :=
  if l.head? = some '-' then (parseNat l.tail).map fun p => (-(p.1 : Int), p.2)
  else (parseNat l).map fun p => ((p.1 : Int), p.2)

/-- A value of the filtering map: an id list (the `__in` constraints) or a
string constraint (the date bounds). -/
inductive FilterVal where
  | ints (l : List Int)
  | str (s : String)
  deriving Repr, DecidableEq

/-- A filter specification as assembled by `ticket_list` into `query_params`:
the filtering map and the sorting/sortreverse/keyword/search_string keys, in
the dictionary's insertion order. -/
structure FilterSpec where
  filtering : List (String × FilterVal)
  sorting : Option String
  sortreverse : Bool
  keyword : Option String
  search_string : Option String
  deriving Repr, DecidableEq

/-- Characters that the JSON encoder emits verbatim inside a string literal
(printable ASCII except the quote and the backslash); the escape machinery
of the encoder is not needed on this sublanguage and is not modelled. -/
def jsonSafeChar (c : Char) : Bool :=
  32 ≤ c.toNat && c.toNat ≤ 126 && !(c = qc) && !(c = bsc)

/-- Well-formedness of a filtering value. -/
def FilterVal.wf : FilterVal → Bool
  | .ints _ => true
  | .str s => s.data.all jsonSafeChar

/-- Well-formedness of an optional string field. -/
def strWfOpt : Option String → Bool
  | none => true
  | some s => s.data.all jsonSafeChar

/-- Well-formedness of a filter specification: every contained string is in
the verbatim sublanguage. -/
def FilterSpec.wf (sp : FilterSpec) : Bool :=
  sp.filtering.all (fun kv => kv.1.data.all jsonSafeChar && kv.2.wf) &&
  strWfOpt sp.sorting && strWfOpt sp.keyword && strWfOpt sp.search_string

/-- A JSON string literal. -/
def qstr (s : List Char) : List Char := qc :: (s ++ [qc])

/-- Serialize the elements of an id list, up to and including the closing
bracket. -/
def serInts : List Int → List Char
  | [] => [']']
  | [i] => intRepr i ++ [']']
  | i :: is => intRepr i ++ ',' :: ' ' :: serInts is

/-- Serialize a filtering value. -/
def serVal : FilterVal → List Char
  | .ints l => '[' :: serInts l
  | .str s => qstr s.data

/-- Serialize one filtering entry. -/
def serEntry (kv : String × FilterVal) : List Char :=
  qstr kv.1.data ++ ':' :: ' ' :: serVal kv.2

/-- Serialize the filtering entries, up to and including the closing
brace. -/
def serEntries : List (String × FilterVal) → List Char
  | [] => [rb]
  | [kv] => serEntry kv ++ [rb]
  | kv :: rest => serEntry kv ++ ',' :: ' ' :: serEntries rest

/-- Serialize an optional string (`null` for `None`). -/
def serOptStr : Option String → List Char
  | none => "null".data
  | some s => qstr s.data

/-- Serialize a boolean. -/
def serBool (b : Bool) : List Char :=
  if b then "true".data else "false".data

/-- Fixed text before the filtering entries. -/
def K1 : List Char := lb :: (qstr "filtering".data ++ [':', ' ', lb])

/-- Fixed text before the sorting value. -/
def K2 : List Char := ',' :: ' ' :: (qstr "sorting".data ++ [':', ' '])

/-- Fixed text before the sortreverse value. -/
def K3 : List Char := ',' :: ' ' :: (qstr "sortreverse".data ++ [':', ' '])

/-- Fixed text before the keyword value. -/
def K4 : List Char := ',' :: ' ' :: (qstr "keyword".data ++ [':', ' '])

/-- Fixed text before the search-string value. -/
def K5 : List Char := ',' :: ' ' :: (qstr "search_string".data ++ [':', ' '])

/-- Model of `json.dumps(query_params)` on the dictionaries `ticket_list`
builds: the five keys in insertion order, default separators. -/
def dumpSpec (sp : FilterSpec) : List Char :=
  K1 ++ serEntries sp.filtering ++ K2 ++ serOptStr sp.sorting ++ K3 ++
    serBool sp.sortreverse ++ K4 ++ serOptStr sp.keyword ++ K5 ++
    serOptStr sp.search_string ++ [rb]

/-- Expect a literal chunk of text. -/
def parseLit (pat l : List Char) : Option (List Char) :=
  if pat.isPrefixOf l then some (l.drop pat.length) else none

/-- Scan a string literal after its opening quote. -/
def scanStr : List Char → Option (List Char × List Char)
  | c :: rest =>
    if c = qc then some ([], rest)
    else (scanStr rest).map fun p => (c :: p.1, p.2)
  | [] => none

/-- Parse a JSON string literal. -/
def parseJStr : List Char → Option (List Char × List Char)
  | c :: rest => if c = qc then scanStr rest else none
  | [] => none

/-- Parse `null` or a string literal. -/
def parseOptStr (l : List Char) : Option (Option String × List Char) :=
  if l.head? = some 'n' then (parseLit "null".data l).map fun r => (none, r)
  else (parseJStr l).map fun p => (some (String.mk p.1), p.2)

/-- Parse `true` or `false`. -/
def parseBool (l : List Char) : Option (Bool × List Char) :=
  if l.head? = some 't' then (parseLit "true".data l).map fun r => (true, r)
  else (parseLit "false".data l).map fun r => (false, r)

/-- Parse the elements of an id list after the opening bracket (fueled by an
upper bound on the element count). -/
def parseIntsF : Nat → List Char → Option (List Int × List Char)
  | 0, _ => none
  | fuel + 1, l =>
    if l.head? = some ']' then some ([], l.tail)
    else
      match parseInt l with
      | some (i, rest) =>
        match rest with
        | ']' :: r2 => some ([i], r2)
        | ',' :: ' ' :: r2 => (parseIntsF fuel r2).map fun p => (i :: p.1, p.2)
        | _ => none
      | none => none

/-- Parse a filtering value. -/
def parseVal (l : List Char) : Option (FilterVal × List Char) :=
  if l.head? = some '[' then
    (parseIntsF l.length l.tail).map fun p => (.ints p.1, p.2)
  else (parseJStr l).map fun p => (.str (String.mk p.1), p.2)

/-- Parse the filtering entries after the opening brace (fueled by an upper
bound on the entry count). -/
def parseEntriesF : Nat → List Char →
    Option (List (String × FilterVal) × List Char)
  | 0, _ => none
  | fuel + 1, l =>
    if l.head? = some rb then some ([], l.tail)
    else
      match parseJStr l with
      | some (k, r1) =>
        match parseLit [':', ' '] r1 with
        | some r2 =>
          match parseVal r2 with
          | some (v, r3) =>
            match r3 with
            | c :: r4 =>
              if c = rb then some ([(String.mk k, v)], r4)
              else if c = ',' then
                match r4 with
                | ' ' :: r5 =>
                  (parseEntriesF fuel r5).map fun p =>
                    ((String.mk k, v) :: p.1, p.2)
                | _ => none
              else none
            | [] => none
          | none => none
        | none => none
      | none => none

/-- Model of `json.loads` restricted to the sublanguage produced by
`dumpSpec`; any other input answers `none`, standing for the `ValueError`
the view catches. -/
def parseSpec (l : List Char) : Option FilterSpec :=
  match parseLit K1 l with
  | none => none
  | some r1 =>
    match parseEntriesF r1.length r1 with
    | none => none
    | some (fil, r2) =>
      match parseLit K2 r2 with
      | none => none
      | some r3 =>
        match parseOptStr r3 with
        | none => none
        | some (sorting, r4) =>
          match parseLit K3 r4 with
          | none => none
          | some r5 =>
            match parseBool r5 with
            | none => none
            | some (srev, r6) =>
              match parseLit K4 r6 with
              | none => none
              | some r7 =>
                match parseOptStr r7 with
                | none => none
                | some (kw, r8) =>
                  match parseLit K5 r8 with
                  | none => none
                  | some r9 =>
                    match parseOptStr r9 with
                    | none => none
                    | some (ss, r10) =>
                      match r10 with
                      | [c] =>
                        if c = rb then some ⟨fil, sorting, srev, kw, ss⟩
                        else none
                      | _ => none

/-- Modelled from the spec: `helpdesk.lib.b64encode` is not under `src/`;
the spec says saved queries are stored "serialized (JSON, base64-encoded)",
so standard base64 is modelled.  Character of one 6-bit group. -/
def b64Char (n : Nat) : Char :=
  if n < 26 then Char.ofNat (65 + n)
  else if n < 52 then Char.ofNat (97 + (n - 26))
  else if n < 62 then Char.ofNat (48 + (n - 52))
  else if n = 62 then '+'
  else '/'

/-- Value of one base64 alphabet character. -/
def b64Val (c : Char) : Option Nat :=
  if 65 ≤ c.toNat ∧ c.toNat ≤ 90 then some (c.toNat - 65)
  else if 97 ≤ c.toNat ∧ c.toNat ≤ 122 then some (c.toNat - 97 + 26)
  else if 48 ≤ c.toNat ∧ c.toNat ≤ 57 then some (c.toNat - 48 + 52)
  else if c = '+' then some 62
  else if c = '/' then some 63
  else none

/-- Modelled from the spec: standard padded base64 encoding of a byte
list. -/
def b64e : List Nat → List Char
  | [] => []
  | [b1] => [b64Char (b1 / 4), b64Char (b1 % 4 * 16), '=', '=']
  | [b1, b2] =>
    [b64Char (b1 / 4), b64Char (b1 % 4 * 16 + b2 / 16),
     b64Char (b2 % 16 * 4), '=']
  | b1 :: b2 :: b3 :: rest =>
    b64Char (b1 / 4) :: b64Char (b1 % 4 * 16 + b2 / 16) ::
    b64Char (b2 % 16 * 4 + b3 / 64) :: b64Char (b3 % 64) :: b64e rest

/-- Modelled from the spec: base64 decoding (`helpdesk.lib.b64decode`);
`none` stands for the `binascii.Error` (a `ValueError`) that malformed input
raises, which the view catches. -/
def b64d : List Char → Option (List Nat)
  | [] => some []
  | c1 :: c2 :: c3 :: c4 :: rest =>
    if c3 = '=' ∧ c4 = '=' ∧ rest = [] then
      match b64Val c1, b64Val c2 with
      | some s1, some s2 => some [s1 * 4 + s2 / 16]
      | _, _ => none
    else if c4 = '=' ∧ rest = [] then
      match b64Val c1, b64Val c2, b64Val c3 with
      | some s1, some s2, some s3 =>
        some [s1 * 4 + s2 / 16, s2 % 16 * 16 + s3 / 4]
      | _, _, _ => none
    else
      match b64Val c1, b64Val c2, b64Val c3, b64Val c4 with
      | some s1, some s2, some s3, some s4 =>
        (b64d rest).map fun bs =>
          (s1 * 4 + s2 / 16) :: (s2 % 16 * 16 + s3 / 4) ::
            (s3 % 4 * 64 + s4) :: bs
      | _, _, _, _ => none
  | _ => none

/-- Python's `str.lstrip("b\\'")` as applied to the stored query: drop
leading characters drawn from the three-character strip set. -/
def lstripLegacy : List Char → List Char
  | c :: rest =>
    if c = 'b' ∨ c = bsc ∨ c = apos then lstripLegacy rest else c :: rest
  | [] => []

/-- Encoding of a filter specification into the persisted saved-query
format (`views/staff.py` line 1203): JSON text, then base64 over its
bytes. -/
def saveQuery (sp : FilterSpec) : List Char :=
  b64e ((dumpSpec sp).map Char.toNat)

/-- Decoding of a stored saved-query string (`views/staff.py` line 1081):
strip the legacy quoting artifact, base64-decode, UTF-8-decode, JSON-parse;
`none` is the caught `ValueError` that redirects to the default ticket
list. -/
def loadSavedQuery (stored : List Char) : Option FilterSpec :=
  (b64d (lstripLegacy stored)).bind fun bytes =>
    parseSpec (bytes.map Char.ofNat)

/-- C1 counterexample.  A ticket whose status is Closed while an earlier
`resolved` timestamp is still set: `Ticket.save` fills in `closed` but leaves
`resolved` set, so after the save both timestamps are set although the status
is Closed — refuting "exactly one of \x7bresolved, closed\x7d is set when the
status is Resolved or Closed respectively" and "entering Resolved clears the
closed timestamp" as an unconditional rule. -/
theorem C1_counterexample :
    (ticketSave { baseTicket with status := CLOSED_STATUS, resolved := some 5 } 10).status
        = CLOSED_STATUS ∧
    (ticketSave { baseTicket with status := CLOSED_STATUS, resolved := some 5 } 10).resolved
        = some 5 ∧
    (ticketSave { baseTicket with status := CLOSED_STATUS, resolved := some 5 } 10).closed
        = some 10 := by
  decide

/-- C1 amended.  For every save of a Ticket the status/timestamp rules of the
source hold: entering Resolved sets `resolved := now` and clears `closed`
only when `resolved` was still unset; entering Closed or Duplicate sets
`closed := now` (if unset) and leaves `resolved` untouched, so both
timestamps may be set while the status is Closed; entering Open or Reopened
clears both timestamps; in the remaining cases both timestamps are kept. -/
theorem C1_ticketSave_timestamps (t : UTicket) (now : Nat) :
    ((ticketSave t now).resolved, (ticketSave t now).closed) =
      expectedTimestamps t now := by
  simp only [ticketSave, expectedTimestamps, OPEN_STATUS, REOPENED_STATUS,
    RESOLVED_STATUS, CLOSED_STATUS, DUPLICATE_STATUS]
  split_ifs <;> simp_all <;> omega

/-- C7.  The merge-propagation step at the end of `Ticket.save` is
idempotent: running it twice in a row with no intervening change to the
target ticket yields the same ticket store as running it once — in
particular, identical values of the overwritten fields (assignee, category,
type, billing, customer, site, product) on all tickets merged into the
target. -/
theorem C7_propagateMerge_idempotent (targetId : Nat) (target : UTicket)
    (store : List UTicket) :
    propagateMerge targetId target (propagateMerge targetId target store) =
      propagateMerge targetId target store := by
  induction store with
  | nil => rfl
  | cons t rest ih =>
    simp only [propagateMerge, List.map_cons] at *
    refine congrArg₂ _ ?_ ih
    by_cases h : t.merged_to = some targetId
    · simp [h, overrideFromTarget]
    · simp [h]

/-- Skipping exactly the length of a prefix resumes plain scanning. -/
theorem replAux_skip (pat rep : List Char) (s z : List Char) :
    replAux pat rep (s ++ z) s.length = replAux pat rep z 0 := by
  induction s with
  | nil => rfl
  | cons c s ih => simpa [replAux] using ih

/-- Text whose characters never start the pattern is copied unchanged. -/
theorem replAux_text (p : Char) (pat rep : List Char) (s z : List Char)
    (hs : ∀ c ∈ s, c ≠ p) :
    replAux (p :: pat) rep (s ++ z) 0 = s ++ replAux (p :: pat) rep z 0 := by
  induction s with
  | nil => rfl
  | cons c s ih =>
    have hc : (p == c) = false := by
      have := hs c (by simp)
      simp [beq_iff_eq]
      exact fun h => this h.symm
    simp only [List.cons_append, replAux, List.isPrefixOf, hc, Bool.false_and,
      Bool.false_eq_true, if_false]
    exact congrArg (c :: ·) (ih fun d hd => hs d (List.mem_cons_of_mem _ hd))

/-- A pattern occurrence at the head is replaced and scanning resumes after
it. -/
theorem replAux_match (pat rep z : List Char) (h : pat ≠ []) :
    replAux pat rep (pat ++ z) 0 = rep ++ replAux pat rep z 0 := by
  cases pat with
  | nil => exact absurd rfl h
  | cons p pat =>
    have hpre : ((p :: pat).isPrefixOf ((p :: pat) ++ z)) = true := by
      rw [List.isPrefixOf_iff_prefix]
      exact List.prefix_append _ _
    simp only [List.cons_append, replAux, hpre, if_true]
    have := replAux_skip (p :: pat) rep pat z
    simpa using congrArg (rep ++ ·) this

/-- Prefix testing ignores a suffix beyond the candidate's length. -/
theorem isPrefixOf_append_of_le (p s z : List Char) (h : p.length ≤ s.length) :
    (p.isPrefixOf (s ++ z)) = p.isPrefixOf s := by
  induction p generalizing s with
  | nil => simp [List.isPrefixOf]
  | cons a p ih =>
    cases s with
    | nil => simp at h
    | cons b s =>
      simp only [List.cons_append, List.isPrefixOf, List.append_eq]
      rw [ih s (by simpa using h)]

/-- A block that is at least as long as the pattern, is not started by it,
and whose tail avoids the pattern's first character, is copied unchanged. -/
theorem replAux_block (p : Char) (pat rep : List Char) (B z : List Char)
    (hpre : ((p :: pat).isPrefixOf B) = false)
    (hlen : (p :: pat).length ≤ B.length)
    (htail : ∀ c ∈ B.tail, c ≠ p) :
    replAux (p :: pat) rep (B ++ z) 0 = B ++ replAux (p :: pat) rep z 0 := by
  cases B with
  | nil => simp at hlen
  | cons b B =>
    by_cases hb : b = p
    · subst hb
      have h1 : (pat.isPrefixOf B) = false := by
        simpa [List.isPrefixOf] using hpre
      have h2 : (pat.isPrefixOf (B ++ z)) = false := by
        rw [isPrefixOf_append_of_le pat B z (by simpa using hlen)]
        exact h1
      have h3 : ((b :: pat).isPrefixOf (b :: (B ++ z))) = false := by
        simp [List.isPrefixOf, h2]
      simp only [List.cons_append, replAux, List.append_eq, h3,
        Bool.false_eq_true, if_false]
      exact congrArg (b :: ·)
        (replAux_text b pat rep B z (by simpa using htail))
    · refine replAux_text p pat rep (b :: B) z ?_
      intro c hc
      rcases List.mem_cons.mp hc with h | h
      · exact h ▸ hb
      · exact htail c h

/-- Unpack the character conditions bundled in `safeChar`. -/
theorem safeChar_spec (s : List Char) (h : s.all safeChar = true) :
    (∀ c ∈ s, c ≠ lb) ∧ (∀ c ∈ s, c ≠ '%') ∧ (∀ c ∈ s, c ≠ 'X') := by
  simp only [List.all_eq_true, safeChar, Bool.and_eq_true,
    Bool.not_eq_true', decide_eq_false_iff_not] at h
  exact ⟨fun c hc => (h c hc).1.1.1, fun c hc => (h c hc).1.2,
    fun c hc => (h c hc).2⟩

/-- Stage 1 of the neutralization on a decomposed comment: every directive
opener becomes `M1`. -/
theorem stage1_segs (segs : List Seg) (h : SegsWF segs = true) :
    replaceAll tagOpen M1 (segsFlat segs) = (segs.map nflat1).flatten := by
  induction segs with
  | nil => rfl
  | cons g r ih =>
    have hg : SegWF g = true ∧ SegsWF r = true := by
      simpa [SegsWF] using h
    have ihr := ih hg.2
    cases g with
    | plain s =>
      have hsafe := safeChar_spec s (by simpa [SegWF] using hg.1)
      simp only [segsFlat, List.map_cons, List.flatten_cons, Seg.flat, nflat1]
      unfold replaceAll
      rw [show tagOpen = lb :: ['%'] from rfl]
      rw [replAux_text lb ['%'] M1 s _ hsafe.1]
      unfold replaceAll at ihr
      rw [show (segsFlat r : List Char) = (r.map Seg.flat).flatten from rfl,
        show tagOpen = lb :: ['%'] from rfl] at ihr
      exact congrArg (s ++ ·) ihr
    | dir s =>
      have hsafe := safeChar_spec s (by
        simp only [SegWF, Bool.and_eq_true] at hg
        exact hg.1.1)
      simp only [segsFlat, List.map_cons, List.flatten_cons, Seg.flat, nflat1]
      have e1 : lb :: '%' :: (s ++ ['%', rb]) ++ (r.map Seg.flat).flatten
          = tagOpen ++ (s ++ (tagClose ++ (r.map Seg.flat).flatten)) := by
        simp [tagOpen, tagClose]
      rw [e1]
      unfold replaceAll
      rw [show tagOpen = lb :: ['%'] from rfl]
      rw [replAux_match (lb :: ['%']) M1 _ (by simp)]
      rw [replAux_text lb ['%'] M1 s _ hsafe.1]
      rw [show (tagClose ++ (r.map Seg.flat).flatten)
            = ['%', rb] ++ (r.map Seg.flat).flatten from rfl]
      rw [replAux_text lb ['%'] M1 ['%', rb] _ (by decide)]
      unfold replaceAll at ihr
      rw [show (segsFlat r : List Char) = (r.map Seg.flat).flatten from rfl,
        show tagOpen = lb :: ['%'] from rfl] at ihr
      rw [ihr]
      simp [tagClose]

/-- Stage 2: every directive closer becomes `M2`. -/
theorem stage2_segs (segs : List Seg) (h : SegsWF segs = true) :
    replaceAll tagClose M2 ((segs.map nflat1).flatten)
      = (segs.map nflat2).flatten := by
  induction segs with
  | nil => rfl
  | cons g r ih =>
    have hg : SegWF g = true ∧ SegsWF r = true := by
      simpa [SegsWF] using h
    have ihr := ih hg.2
    unfold replaceAll at ihr ⊢
    rw [show tagClose = '%' :: [rb] from rfl] at ihr ⊢
    cases g with
    | plain s =>
      have hsafe := safeChar_spec s (by simpa [SegWF] using hg.1)
      simp only [List.map_cons, List.flatten_cons, nflat1, nflat2]
      rw [replAux_text '%' [rb] M2 s _ hsafe.2.1]
      exact congrArg (s ++ ·) ihr
    | dir s =>
      have hsafe := safeChar_spec s (by
        simp only [SegWF, Bool.and_eq_true] at hg
        exact hg.1.1)
      simp only [List.map_cons, List.flatten_cons, nflat1, nflat2]
      have e1 : M1 ++ (s ++ tagClose) ++ (r.map nflat1).flatten
          = M1 ++ (s ++ (tagClose ++ (r.map nflat1).flatten)) := by
        simp
      rw [e1]
      rw [replAux_text '%' [rb] M2 M1 _ (by decide)]
      rw [replAux_text '%' [rb] M2 s _ hsafe.2.1]
      rw [show tagClose ++ (r.map nflat1).flatten
            = ('%' :: [rb]) ++ (r.map nflat1).flatten from rfl]
      rw [replAux_match ('%' :: [rb]) M2 _ (by simp)]
      rw [ihr]
      simp

/-- Stage 3: `M1` expands to an opener wrapped in a verbatim tag. -/
theorem stage3_segs (segs : List Seg) (h : SegsWF segs = true) :
    replaceAll M1 verbatimIns ((segs.map nflat2).flatten)
      = (segs.map nflat3).flatten := by
  induction segs with
  | nil => rfl
  | cons g r ih =>
    have hg : SegWF g = true ∧ SegsWF r = true := by
      simpa [SegsWF] using h
    have ihr := ih hg.2
    unfold replaceAll at ihr ⊢
    rw [show M1 = 'X' :: "-HELPDESK-COMMENT-VERBATIM".data from rfl] at ihr ⊢
    cases g with
    | plain s =>
      have hsafe := safeChar_spec s (by simpa [SegWF] using hg.1)
      simp only [List.map_cons, List.flatten_cons, nflat2, nflat3]
      rw [replAux_text 'X' "-HELPDESK-COMMENT-VERBATIM".data verbatimIns s _
        hsafe.2.2]
      exact congrArg (s ++ ·) ihr
    | dir s =>
      have hsafe := safeChar_spec s (by
        simp only [SegWF, Bool.and_eq_true] at hg
        exact hg.1.1)
      simp only [List.map_cons, List.flatten_cons, nflat2, nflat3]
      have e1 : M1 ++ (s ++ M2) ++ (r.map nflat2).flatten
          = M1 ++ (s ++ (M2 ++ (r.map nflat2).flatten)) := by
        simp
      rw [e1]
      rw [show M1 = 'X' :: "-HELPDESK-COMMENT-VERBATIM".data from rfl]
      rw [replAux_match ('X' :: "-HELPDESK-COMMENT-VERBATIM".data) verbatimIns _
        (by simp)]
      rw [replAux_text 'X' "-HELPDESK-COMMENT-VERBATIM".data verbatimIns s _
        hsafe.2.2]
      rw [replAux_block 'X' "-HELPDESK-COMMENT-VERBATIM".data verbatimIns M2 _
        (by decide) (by decide) (by decide)]
      rw [ihr]
      simp

/-- Stage 4: `M2` expands to a closer followed by an endverbatim tag. -/
theorem stage4_segs (segs : List Seg) (h : SegsWF segs = true) :
    replaceAll M2 endverbatimIns ((segs.map nflat3).flatten)
      = (segs.map nflat).flatten := by
  induction segs with
  | nil => rfl
  | cons g r ih =>
    have hg : SegWF g = true ∧ SegsWF r = true := by
      simpa [SegsWF] using h
    have ihr := ih hg.2
    unfold replaceAll at ihr ⊢
    rw [show M2 = 'X' :: "-HELPDESK-COMMENT-ENDVERBATIM".data from rfl] at ihr ⊢
    cases g with
    | plain s =>
      have hsafe := safeChar_spec s (by simpa [SegWF] using hg.1)
      simp only [List.map_cons, List.flatten_cons, nflat3, nflat]
      rw [replAux_text 'X' "-HELPDESK-COMMENT-ENDVERBATIM".data endverbatimIns s _
        hsafe.2.2]
      exact congrArg (s ++ ·) ihr
    | dir s =>
      have hsafe := safeChar_spec s (by
        simp only [SegWF, Bool.and_eq_true] at hg
        exact hg.1.1)
      simp only [List.map_cons, List.flatten_cons, nflat3, nflat]
      have e1 : verbatimIns ++ (s ++ M2) ++ (r.map nflat3).flatten
          = verbatimIns ++ (s ++ (M2 ++ (r.map nflat3).flatten)) := by
        simp
      rw [e1]
      rw [replAux_text 'X' "-HELPDESK-COMMENT-ENDVERBATIM".data endverbatimIns
        verbatimIns _ (by decide)]
      rw [replAux_text 'X' "-HELPDESK-COMMENT-ENDVERBATIM".data endverbatimIns s _
        hsafe.2.2]
      rw [show M2 ++ (r.map nflat3).flatten
            = ('X' :: "-HELPDESK-COMMENT-ENDVERBATIM".data)
                ++ (r.map nflat3).flatten from rfl]
      rw [replAux_match ('X' :: "-HELPDESK-COMMENT-ENDVERBATIM".data)
        endverbatimIns _ (by simp)]
      rw [ihr]
      simp

/-- The complete neutralization of a well-formed decomposed comment wraps
every directive in a verbatim block and copies the text. -/
theorem neutralize_segs (segs : List Seg) (h : SegsWF segs = true) :
    neutralize (segsFlat segs) = (segs.map nflat).flatten := by
  unfold neutralize
  rw [stage1_segs segs h, stage2_segs segs h, stage3_segs segs h,
    stage4_segs segs h]

/-- Text that never opens a directive is copied by the engine. -/
theorem djA_text (verb : Bool) (s z : List Char) (hs : ∀ c ∈ s, c ≠ lb) :
    djA verb none (s ++ z) = (djA verb none z).map (s ++ ·) := by
  induction s with
  | nil =>
    simp only [List.nil_append]
    cases djA verb none z <;> simp
  | cons c s ih =>
    have hc : c ≠ lb := hs c (by simp)
    have ihs := ih fun d hd => hs d (List.mem_cons_of_mem _ hd)
    cases hsz : s ++ z with
    | nil =>
      rcases List.append_eq_nil.mp hsz with ⟨hs0, hz0⟩
      subst hs0; subst hz0
      cases verb <;> simp [djA]
    | cons b rest =>
      simp only [List.cons_append, hsz, djA, hc, false_and, if_false]
      rw [← hsz, ihs]
      cases djA verb none z <;> simp

/-- Scanning the inside of a directive accumulates its content up to the
nearest closer. -/
theorem djA_scan (verb : Bool) (acc s z : List Char)
    (hs : ∀ c ∈ s, c ≠ '%') :
    djA verb (some acc) (s ++ '%' :: rb :: z)
      = djA verb (some (acc ++ s)) ('%' :: rb :: z) := by
  induction s generalizing acc with
  | nil => simp
  | cons a s ih =>
    have ha : a ≠ '%' := hs a (by simp)
    have ihs := ih (acc ++ [a]) fun d hd => hs d (List.mem_cons_of_mem _ hd)
    cases hsz : s ++ '%' :: rb :: z with
    | nil => simp at hsz
    | cons b rest =>
      calc djA verb (some acc) ((a :: s) ++ '%' :: rb :: z)
          = djA verb (some acc) (a :: b :: rest) := by
            rw [List.cons_append, hsz]
        _ = djA verb (some (acc ++ [a])) (b :: rest) := by
            simp [djA, ha]
        _ = djA verb (some (acc ++ [a])) (s ++ '%' :: rb :: z) := by rw [hsz]
        _ = djA verb (some (acc ++ [a] ++ s)) ('%' :: rb :: z) := ihs
        _ = djA verb (some (acc ++ a :: s)) ('%' :: rb :: z) := by
            simp only [List.append_assoc, List.singleton_append]

/-- Rendering the neutralized form of a well-formed decomposed comment
reproduces the original comment exactly — directives come out literally. -/
theorem djA_segs (segs : List Seg) (h : SegsWF segs = true) :
    djA false none ((segs.map nflat).flatten) = some (segsFlat segs) := by
  induction segs with
  | nil => rfl
  | cons g r ih =>
    have hg : SegWF g = true ∧ SegsWF r = true := by
      simpa [SegsWF] using h
    have ihr := ih hg.2
    cases g with
    | plain s =>
      have hsafe := safeChar_spec s (by simpa [SegWF] using hg.1)
      simp only [List.map_cons, List.flatten_cons, nflat]
      rw [djA_text false s _ hsafe.1, ihr]
      simp [segsFlat, Seg.flat]
    | dir s =>
      have hwf : s.all safeChar = true ∧ ¬(stripWs s = "endverbatim".data) := by
        simpa [SegWF] using hg.1
      have hsafe := safeChar_spec s hwf.1
      simp only [List.map_cons, List.flatten_cons, nflat]
      have e1 : verbatimIns ++ (s ++ endverbatimIns) ++ (r.map nflat).flatten
          = lb :: '%' :: (" verbatim ".data ++ '%' :: rb ::
              (lb :: '%' :: (s ++ '%' :: rb ::
                (lb :: '%' :: (" endverbatim ".data ++ '%' :: rb ::
                  (r.map nflat).flatten))))) := by
        simp [verbatimIns, endverbatimIns, tagOpen, tagClose]
      rw [e1]
      rw [show ∀ x, djA false none (lb :: '%' :: x) = djA false (some []) x
        from fun x => by simp [djA]]
      rw [djA_scan false [] " verbatim ".data _ (by decide)]
      have hver : stripWs [' ', 'v', 'e', 'r', 'b', 'a', 't', 'i', 'm', ' ']
          = ['v', 'e', 'r', 'b', 'a', 't', 'i', 'm'] := by decide
      rw [show ∀ x, djA false (some (([] : List Char) ++ " verbatim ".data))
            ('%' :: rb :: x) = djA true none x
        from fun x => by simp [djA, hver]]
      rw [show ∀ x, djA true none (lb :: '%' :: x) = djA true (some []) x
        from fun x => by simp [djA]]
      rw [djA_scan true [] s _ hsafe.2.1]
      have hclose : ∀ x, djA true (some (([] : List Char) ++ s)) ('%' :: rb :: x)
          = (djA true none x).map fun out => lb :: '%' :: (s ++ '%' :: rb :: out) := by
        intro x
        simp [djA, hwf.2]
      rw [hclose]
      rw [show ∀ x, djA true none (lb :: '%' :: x) = djA true (some []) x
        from fun x => by simp [djA]]
      rw [djA_scan true [] " endverbatim ".data _ (by decide)]
      have hend : stripWs [' ', 'e', 'n', 'd', 'v', 'e', 'r', 'b', 'a', 't',
            'i', 'm', ' ']
          = ['e', 'n', 'd', 'v', 'e', 'r', 'b', 'a', 't', 'i', 'm'] := by decide
      rw [show ∀ x, djA true (some (([] : List Char) ++ " endverbatim ".data))
            ('%' :: rb :: x) = djA false none x
        from fun x => by simp [djA, hend]]
      rw [ihr]
      simp [segsFlat, Seg.flat]

/-- C6 counterexample.  A comment consisting of a bare directive closer: the
neutralization turns it into a closer followed by an endverbatim tag, which
the engine rejects as an invalid block tag in normal mode.  The render is an
error (`none`), so the closer is not reproduced literally in any follow-up
comment, refuting the claim for this input. -/
theorem C6_counterexample : renderCommentL ['%', rb] = none := by
  decide

/-- C6 amended.  For every comment whose directive delimiters are properly
paired — the comment decomposes into ordinary text and complete
opener-content-closer directives, the content not itself being an
endverbatim tag — the rendered follow-up comment reproduces the comment,
delimiters included, literally; a dangling opener or closer instead aborts
rendering with a template error. -/
theorem C6_render_literal (segs : List Seg) (h : SegsWF segs = true) :
    renderCommentL (segsFlat segs) = some (segsFlat segs) := by
  unfold renderCommentL
  rw [neutralize_segs segs h]
  exact djA_segs segs h

/-- C6 witness.  A concrete comment with one embedded directive renders to
itself, by the amended theorem. -/
theorem C6_witness :
    SegsWF [Seg.plain "a ".data, Seg.dir " if user ".data,
        Seg.plain " b".data] = true ∧
      renderCommentL (segsFlat [Seg.plain "a ".data, Seg.dir " if user ".data,
        Seg.plain " b".data])
        = some (segsFlat [Seg.plain "a ".data, Seg.dir " if user ".data,
            Seg.plain " b".data]) :=
  ⟨by decide, C6_render_literal _ (by decide)⟩

/-- C2.  When no files and no comment are supplied and every proposed field
(status, title, priority, due date, owner, customer, customer contact, site,
customer product) equals its current value on the ticket, the workflow
answers the no-op signal: no FollowUp, no TicketChange, no notification, and
the ticket row is untouched.  The owner proposal equals the current value
when it is the omitted sentinel `-1`, the cleared value `0` against an
unassigned ticket, or the current assignee's (existing, nonzero) id. -/
theorem C2_noop (db : Db) (allowNonStaff : Bool) (reqUser : Option Nat)
    (isStaff : Bool) (t : UTicket) (p : UParams) (now : Nat)
    (hfiles : p.hasFiles = false) (hcomment : p.comment = "")
    (hstatus : p.new_status.getD t.status = t.status)
    (htitle : p.title = t.title)
    (hpriority : p.priority.getD t.priority = t.priority)
    (hdue : p.due_date = t.due_date)
    (hcc : p.customer_contact_id = t.customer_contact)
    (hcu : p.customer_id = t.customer)
    (hsi : p.site_id = t.site)
    (hcp : p.customer_product_id = t.customer_product)
    (howner : p.owner = -1 ∨ (p.owner = 0 ∧ t.assigned_to = none) ∨
      (∃ a, t.assigned_to = some a ∧ p.owner = (a : Int) ∧ a ≠ 0 ∧
        a ∈ db.users)) :
    updateTicket db allowNonStaff reqUser isStaff t p now = .noChanges := by
  have hb : noChangesCheck t p (p.new_status.getD t.status)
      (p.priority.getD t.priority) true = true := by
    simp [noChangesCheck, hfiles, hcomment, hstatus, htitle, hpriority, hdue,
      hcc, hcu, hsi, hcp]
  rcases howner with h | ⟨h, hnone⟩ | ⟨a, ha, hpa, ha0, hmem⟩
  · simp [updateTicket, ownerNcCheck, h, hb]
  · simp [updateTicket, ownerNcCheck, h, hnone, hb]
  · have h1 : ¬ (p.owner = -1) := by omega
    have h2 : ¬ (p.owner = 0) := by omega
    have h3 : 0 < p.owner := by omega
    have h4 : p.owner.toNat = a := by omega
    simp [updateTicket, ownerNcCheck, h1, h2, h3, h4, hmem, ha, hb]

/-- C2 witness.  A concrete all-equal request against the base ticket is a
no-op, by the theorem. -/
theorem C2_witness :
    updateTicket testDb false (some 1) true baseTicket noopParams 9
      = .noChanges :=
  C2_noop testDb false (some 1) true baseTicket noopParams 9 rfl rfl
    (by decide) (by decide) (by decide) (by decide) (by decide) (by decide)
    (by decide) (by decide) (Or.inl (by decide))

/-- `Ticket.save` never touches the identity or relational columns. -/
theorem ticketSave_fields (t : UTicket) (now : Nat) :
    (ticketSave t now).title = t.title ∧
    (ticketSave t now).status = t.status ∧
    (ticketSave t now).assigned_to = t.assigned_to ∧
    (ticketSave t now).due_date = t.due_date ∧
    (ticketSave t now).customer_contact = t.customer_contact ∧
    (ticketSave t now).customer = t.customer ∧
    (ticketSave t now).site = t.site ∧
    (ticketSave t now).customer_product = t.customer_product ∧
    (ticketSave t now).submitter_email = t.submitter_email ∧
    (ticketSave t now).resolution = t.resolution := by
  simp [ticketSave, apply_ite UTicket.title, apply_ite UTicket.status,
    apply_ite UTicket.assigned_to, apply_ite UTicket.due_date,
    apply_ite UTicket.customer_contact, apply_ite UTicket.customer,
    apply_ite UTicket.site, apply_ite UTicket.customer_product,
    apply_ite UTicket.submitter_email, apply_ite UTicket.resolution]

/-- With the omitted-owner sentinel, the owner block is a no-op (ids are
positive in the database, so the current assignee is never user 0). -/
theorem ownerBlock_sentinel (db : Db) (t : UTicket)
    (h0 : t.assigned_to ≠ some 0) :
    ownerBlock db t (-1) = .ok (none, t.assigned_to, false) := by
  unfold ownerBlock
  cases ht : t.assigned_to with
  | none => simp [ht]
  | some a =>
    have ha : a ≠ 0 := fun h => h0 (by rw [ht, h])
    have ha0 : ¬ ((a : Int) = 0) := by exact_mod_cast ha
    have ham1 : ¬ ((a : Int) = -1) := by omega
    simp [ht, intOfNatOpt, ha0, ham1]

/-- No status label is an assignment title. -/
theorem statusDisplay_not_assignment (n : Nat) :
    ("Assigned to ".isPrefixOf (statusDisplay n)) = false ∧
      statusDisplay n ≠ "Unassigned" := by
  rcases n with _ | _ | _ | _ | _ | _ | m <;> simp [statusDisplay] <;> decide

/-- The change rows of `buildRows`, with all comparisons written against the
incoming ticket (the in-memory mutations of earlier fields never touch the
fields compared later). -/
theorem buildRows_rows (db : Db) (tb : UTicket) (ns os : Nat) (oss : String)
    (oldOwner : Option Nat) (titleP : String) (priorityP : Nat)
    (dueP ccP cuP siP cpP : Option Nat) :
    (buildRows db tb ns os oss oldOwner titleP priorityP dueP ccP cuP siP
      cpP).1 =
    (if titleP ≠ "" ∧ titleP ≠ tb.title
      then [(⟨"Title", tb.title, titleP⟩ : TicketChangeRec)] else []) ++
    (if ns ≠ os
      then [(⟨"Status", oss, statusDisplay tb.status⟩ : TicketChangeRec)]
      else []) ++
    (if tb.assigned_to ≠ oldOwner
      then [(⟨"Owner", strOpt db.userStr oldOwner,
        strOpt db.userStr tb.assigned_to⟩ : TicketChangeRec)] else []) ++
    (if priorityP ≠ tb.priority
      then [(⟨"Priority", toString tb.priority, toString priorityP⟩ :
        TicketChangeRec)] else []) ++
    (if dueP ≠ tb.due_date
      then [(⟨"Due on", fmtDue tb.due_date, fmtDue dueP⟩ : TicketChangeRec)]
      else []) ++
    (if ccP ≠ tb.customer_contact
      then [(⟨"Contact client", strOpt db.userStr tb.customer_contact,
        strOpt db.userStr (lookupIn db.users ccP)⟩ : TicketChangeRec)]
      else []) ++
    (if cuP ≠ tb.customer
      then [(⟨"Client", strOpt db.customerStr tb.customer,
        strOpt db.customerStr (lookupIn db.customers cuP)⟩ : TicketChangeRec)]
      else []) ++
    (if siP ≠ tb.site
      then [(⟨"Site", strOpt db.siteStr tb.site,
        strOpt db.siteStr (lookupIn db.sites siP)⟩ : TicketChangeRec)]
      else []) ++
    (if cpP ≠ tb.customer_product
      then [(⟨"Produit client", strOpt db.productStr tb.customer_product,
        strOpt db.productStr (lookupIn db.products cpP)⟩ : TicketChangeRec)]
      else []) := by
  simp only [buildRows, apply_ite Prod.fst, apply_ite Prod.snd,
    apply_ite UTicket.title, apply_ite UTicket.status,
    apply_ite UTicket.assigned_to, apply_ite UTicket.priority,
    apply_ite UTicket.due_date, apply_ite UTicket.customer_contact,
    apply_ite UTicket.customer, apply_ite UTicket.site,
    apply_ite UTicket.customer_product, ite_self]

/-- `buildRows` never changes the assignee. -/
theorem buildRows_assigned (db : Db) (tb : UTicket) (ns os : Nat)
    (oss : String) (oldOwner : Option Nat) (titleP : String)
    (priorityP : Nat) (dueP ccP cuP siP cpP : Option Nat) :
    (buildRows db tb ns os oss oldOwner titleP priorityP dueP ccP cuP siP
      cpP).2.assigned_to = tb.assigned_to := by
  simp only [buildRows, apply_ite Prod.fst, apply_ite Prod.snd,
    apply_ite UTicket.assigned_to, ite_self]

/-- `Ticket.save` never changes the assignee. -/
theorem ticketSave_assigned (t : UTicket) (now : Nat) :
    (ticketSave t now).assigned_to = t.assigned_to :=
  (ticketSave_fields t now).2.2.1

/-- No status label starts with an assignment title. -/
theorem statusDisplay_no_prefix (n : Nat) :
    ("Assigned to ".isPrefixOf (statusDisplay n)) = false :=
  (statusDisplay_not_assignment n).1

/-- No status label is the unassignment title. -/
theorem statusDisplay_ne_unassigned (n : Nat) :
    statusDisplay n ≠ "Unassigned" :=
  (statusDisplay_not_assignment n).2

/-- C10.  When the owner field carries the omitted sentinel `-1`, the
assignee is left unchanged whether or not one is set: no reassignment, the
reassigned flag stays false, no Owner change row, and the follow-up title is
neither an assignment nor the unassignment title.  (Ids are positive, so the
assignee is never user 0.) -/
theorem C10_owner_sentinel (db : Db) (allowNonStaff : Bool) (reqUser : Option Nat)
    (isStaff : Bool) (t : UTicket) (p : UParams) (now : Nat)
    (hown : p.owner = -1) (h0 : t.assigned_to ≠ some 0) :
    ownerUntouched t (updateTicket db allowNonStaff reqUser isStaff t p now) := by
  have hnc : ownerNcCheck db t p.owner = .ok true := by
    simp [ownerNcCheck, hown]
  have hob : ownerBlock db t p.owner = .ok (none, t.assigned_to, false) := by
    rw [hown]; exact ownerBlock_sentinel db t h0
  simp only [updateTicket, hnc, hob]
  by_cases hb : noChangesCheck t p (p.new_status.getD t.status)
      (p.priority.getD t.priority) true = true
  · simp [hb, ownerUntouched]
  · simp only [hb, if_false, Bool.false_eq_true]
    cases hr : renderCommentL p.comment.data with
    | none => simp [ownerUntouched]
    | some cl =>
      simp only [ownerUntouched]
      refine ⟨?_, ?_, ?_, ?_, ?_⟩
      · simp only [ticketSave_assigned, buildRows_assigned,
          apply_ite UTicket.assigned_to, ite_self]
      · trivial
      · intro c hc
        rw [buildRows_rows] at hc
        simp only [ticketSave_assigned, apply_ite UTicket.assigned_to,
          ite_self] at hc
        simp only [ne_eq, not_true_eq_false, if_false, List.append_nil,
          List.mem_append, List.mem_ite_nil_right, List.mem_singleton] at hc
        rcases hc with
          (((((((⟨_, rfl⟩ | ⟨_, rfl⟩) | ⟨_, rfl⟩) | ⟨_, rfl⟩) | ⟨_, rfl⟩) |
            ⟨_, rfl⟩) | ⟨_, rfl⟩) | ⟨_, rfl⟩) <;> simp
      · by_cases h1 : p.new_status.getD t.status ≠ t.status
        · simp [h1, statusDisplay_no_prefix]
        · simp only [h1, if_false]
          split_ifs <;> decide
      · by_cases h1 : p.new_status.getD t.status ≠ t.status
        · simp [h1, statusDisplay_ne_unassigned]
        · simp only [h1, if_false]
          split_ifs <;> decide


/-- C10 witness.  A concrete priority-only update with the owner field
omitted leaves the assignee untouched, by the theorem. -/
theorem C10_witness :
    ownerUntouched { baseTicket with assigned_to := some 7 }
      (updateTicket testDb false (some 1) true
        { baseTicket with assigned_to := some 7 }
        { noopParams with priority := some 2 } 9) :=
  C10_owner_sentinel testDb false (some 1) true
    { baseTicket with assigned_to := some 7 }
    { noopParams with priority := some 2 } 9 (by decide) (by decide)

/-- The accumulator returned by the CC loop is the input accumulator plus
the recipients of the mails it sent. -/
theorem ccFanout_sent (tmpl : String) (l sent : List String) :
    (ccFanout tmpl l sent).2
      = sent ++ (ccFanout tmpl l sent).1.map Mail.recipient := by
  induction l generalizing sent with
  | nil => simp [ccFanout]
  | cons e rest ih =>
    by_cases he : e ∈ sent
    · simp only [ccFanout, he, if_true]
      exact ih sent
    · simp only [ccFanout, he, if_false, List.map_cons]
      rw [ih (sent ++ [e])]
      simp

/-- The CC loop keeps the accumulator duplicate-free. -/
theorem ccFanout_nodup (tmpl : String) (l sent : List String)
    (h : sent.Nodup) : ((ccFanout tmpl l sent).2).Nodup := by
  induction l generalizing sent with
  | nil => simpa [ccFanout]
  | cons e rest ih =>
    by_cases he : e ∈ sent
    · simp only [ccFanout, he, if_true]
      exact ih sent h
    · simp only [ccFanout, he, if_false]
      exact ih (sent ++ [e]) (by simp [List.nodup_append, h, he])

/-- After the submitter/CC stage the accumulator is exactly the recipients
notified so far, with no duplicates. -/
theorem submitterStage_inv (db : Db) (publicF : Bool) (comment : String)
    (submitter : Option String) (fnew : Option Nat) :
    (submitterStage db publicF comment submitter fnew).1.map Mail.recipient
      = (submitterStage db publicF comment submitter fnew).2 ∧
    ((submitterStage db publicF comment submitter fnew).2).Nodup := by
  simp only [submitterStage]
  rcases submitter with _ | em <;>
    split_ifs <;>
      first
        | exact ⟨by rw [ccFanout_sent]; simp,
            ccFanout_nodup _ _ _ (by simp)⟩
        | simp

/-- The assignee stage preserves the accumulator invariant. -/
theorem staffStage_inv (db : Db) (reqUser : Option Nat)
    (assigned : Option Nat) (fnew : Option Nat) (reassigned : Bool)
    (ms : List Mail × List String)
    (h1 : ms.1.map Mail.recipient = ms.2) (h2 : ms.2.Nodup) :
    (staffStage db reqUser assigned fnew reassigned ms).1.map Mail.recipient
      = (staffStage db reqUser assigned fnew reassigned ms).2 ∧
    ((staffStage db reqUser assigned fnew reassigned ms).2).Nodup := by
  rcases assigned with _ | a
  · simpa [staffStage] using ⟨h1, h2⟩
  · rcases he : db.userEmail a with _ | em
    · simpa [staffStage, he] using ⟨h1, h2⟩
    · simp only [staffStage, he]
      by_cases g1 : reqUser ≠ some a ∧ em ∉ ms.2
      · rw [if_pos g1]
        by_cases g2 : (¬reassigned = true ∨
            reassigned = true ∧ db.emailOnAssign a = true) ∨
            (¬reassigned = true ∧ db.emailOnChange a = true)
        · rw [if_pos g2]
          exact ⟨by simp [h1], by simp [List.nodup_append, h2, g1.2]⟩
        · rw [if_neg g2]
          exact ⟨h1, h2⟩
      · rw [if_neg g1]
        exact ⟨h1, h2⟩

/-- With the accumulator invariant, the final mail list reaches no address
twice. -/
theorem queueStage_nodup (db : Db) (fnew : Option Nat) (reassigned : Bool)
    (ms : List Mail × List String)
    (h1 : ms.1.map Mail.recipient = ms.2) (h2 : ms.2.Nodup) :
    ((queueStage db fnew reassigned ms).map Mail.recipient).Nodup := by
  rcases hq : db.queueUpdatedCc with _ | qcc
  · simp only [queueStage, hq]
    rw [h1]
    exact h2
  · simp only [queueStage, hq]
    by_cases g : qcc ∉ ms.2
    · rw [if_pos g]
      simp [h1, List.nodup_append, h2, g]
    · rw [if_neg g]
      rw [h1]
      exact h2

theorem fanout_nodup (db : Db) (reqUser : Option Nat) (publicF : Bool)
    (comment : String) (submitter : Option String) (assigned : Option Nat)
    (fnew : Option Nat) (reassigned : Bool) :
    ((fanout db reqUser publicF comment submitter assigned fnew
      reassigned).map Mail.recipient).Nodup := by
  have s1 := submitterStage_inv db publicF comment submitter fnew
  have s2 := staffStage_inv db reqUser assigned fnew reassigned _ s1.1 s1.2
  exact queueStage_nodup db fnew reassigned _ s2.1 s2.2

/-- C4.  Within one Update Workflow invocation, no two notifications are
dispatched to the same resolved e-mail address, across all four audiences
(submitter, CC entries, assignee, queue-level CC); the de-duplication set is
the invocation-local `messages_sent_to` list. -/
theorem C4_notification_dedup (db : Db) (allowNonStaff : Bool) (reqUser : Option Nat)
    (isStaff : Bool) (t : UTicket) (p : UParams) (now : Nat) :
    ∀ t2 f ch mails rs,
      updateTicket db allowNonStaff reqUser isStaff t p now
        = .updated t2 f ch mails rs →
      (mails.map Mail.recipient).Nodup := by
  intro t2 f ch mails rs h
  unfold updateTicket at h
  rcases ho : ownerNcCheck db t p.owner with u | oe
  · rw [ho] at h
    simp at h
  · rw [ho] at h
    by_cases hb : noChangesCheck t p (p.new_status.getD t.status)
        (p.priority.getD t.priority) oe = true
    · simp [hb] at h
    · simp only [hb, if_false, Bool.false_eq_true] at h
      rcases hr : renderCommentL p.comment.data with _ | cl
      · rw [hr] at h
        simp at h
      · rw [hr] at h
        rcases hob : ownerBlock db t p.owner with u | fb
        · rw [hob] at h
          simp at h
        · rw [hob] at h
          simp only [UpdateOutcome.updated.injEq] at h
          obtain ⟨_, _, _, hm, _⟩ := h
          rw [← hm]
          exact fanout_nodup _ _ _ _ _ _ _ _


/-- C4 witness.  The dedup theorem applied to a concrete invocation whose
outcome dispatches one owner notification. -/
theorem C4_witness :
    (([(⟨"updated_owner", "a@x"⟩ : Mail)]).map Mail.recipient).Nodup :=
  C4_notification_dedup testDb false (some 1) true
    { baseTicket with assigned_to := some 7 }
    { noopParams with priority := some 2 } 9
    { baseTicket with assigned_to := some 7, priority := 2, modified := 9 }
    { title := "Updated", comment := "", public := false, new_status := none,
      user := some 1 }
    [⟨"Priority", "3", "2"⟩]
    [⟨"updated_owner", "a@x"⟩] false (by decide)

/-- C5 code bug.  A concrete non-reassigning update where the assignee
exists, differs from the acting user, has an address, was not yet notified,
and has the `email_on_ticket_change` preference disabled: the claim (and the
settings form's own help text) says no owner notification is sent, but the
workflow dispatches `updated_owner` anyway — the preference expression
`(not reassigned or (reassigned and assign_pref)) or (not reassigned and
change_pref)` is identically true whenever `reassigned` is false, so the
change preference is never consulted. -/
theorem C5_pref_ignored :
    testDb.emailOnChange 7 = false ∧
    (updateTicket testDb false (some 1) true
        { baseTicket with assigned_to := some 7 }
        { noopParams with priority := some 2 } 9).mailsOf
      = some [⟨"updated_owner", "a@x"⟩] := by
  constructor
  · rfl
  · decide

theorem b64Val_b64Char : ∀ n, n < 64 → b64Val (b64Char n) = some n := by
  decide

theorem b64Char_ne_pad : ∀ n, n < 64 → ¬ (b64Char n = '=') := by
  decide

theorem b64_roundtrip : ∀ (bs : List Nat), (∀ b ∈ bs, b < 256) →
    b64d (b64e bs) = some bs
  | [], _ => rfl
  | [b1], h => by
    have hb : b1 < 256 := h b1 (by simp)
    simp only [b64e, b64d, and_self, if_true]
    rw [b64Val_b64Char _ (by omega), b64Val_b64Char _ (by omega)]
    simp only [Option.some.injEq, List.cons.injEq, and_true]
    omega
  | [b1, b2], h => by
    have hb1 : b1 < 256 := h b1 (by simp)
    have hb2 : b2 < 256 := h b2 (by simp)
    simp only [b64e, b64d, and_self, and_true, if_true]
    rw [if_neg (fun hcon => b64Char_ne_pad _ (by omega) hcon)]
    rw [b64Val_b64Char _ (by omega), b64Val_b64Char _ (by omega),
      b64Val_b64Char _ (by omega)]
    simp only [Option.some.injEq, List.cons.injEq, and_true]
    constructor <;> omega
  | b1 :: b2 :: b3 :: rest, h => by
    have hb1 : b1 < 256 := h b1 (by simp)
    have hb2 : b2 < 256 := h b2 (by simp)
    have hb3 : b3 < 256 := h b3 (by simp)
    have ih := b64_roundtrip rest fun b hb => h b (by simp [hb])
    simp only [b64e, b64d]
    rw [if_neg (fun hcon => b64Char_ne_pad _ (by omega) hcon.1)]
    rw [if_neg (fun hcon => b64Char_ne_pad _ (by omega) hcon.1)]
    rw [b64Val_b64Char _ (by omega), b64Val_b64Char _ (by omega),
      b64Val_b64Char _ (by omega), b64Val_b64Char _ (by omega)]
    simp only [ih, Option.map_some', Option.some.injEq, List.cons.injEq,
      and_true]
    refine ⟨by omega, by omega, by omega⟩


theorem digitChar_toNat : ∀ d, d < 10 → (digitChar d).toNat = 48 + d := by
  decide

theorem isDig_digitChar : ∀ d, d < 10 → isDig (digitChar d) = true := by
  decide

theorem natDigitsRev_all : ∀ n, ∀ c ∈ natDigitsRev n,
    ∃ d, d < 10 ∧ c = digitChar d := by
  intro n
  induction n using Nat.strong_induction_on with
  | _ n ih =>
    rw [natDigitsRev]
    split_ifs with h
    · intro c hc
      simp only [List.mem_singleton] at hc
      exact ⟨n, h, hc⟩
    · intro c hc
      rcases List.mem_cons.mp hc with h1 | h1
      · exact ⟨n % 10, by omega, h1⟩
      · exact ih (n / 10) (by omega) c h1

theorem natDigitsRev_ne_nil : ∀ n, natDigitsRev n ≠ [] := by
  intro n
  rw [natDigitsRev]
  split_ifs <;> simp

theorem natDigits_cons : ∀ n, ∃ c tl, natDigits n = c :: tl ∧ isDig c = true := by
  intro n
  cases hnd : natDigits n with
  | nil =>
    have : natDigitsRev n = [] := by
      have := congrArg List.reverse hnd
      simpa [natDigits] using this
    exact absurd this (natDigitsRev_ne_nil n)
  | cons c tl =>
    refine ⟨c, tl, rfl, ?_⟩
    have hc : c ∈ natDigitsRev n := by
      have : c ∈ natDigits n := by rw [hnd]; simp
      simpa [natDigits] using this
    obtain ⟨d, hd10, rfl⟩ := natDigitsRev_all n c hc
    exact isDig_digitChar d hd10

theorem parseNatAux_digits : ∀ n acc z,
    parseNatAux acc (natDigits n ++ z)
      = parseNatAux (acc * 10 ^ (natDigits n).length + n) z := by
  intro n
  induction n using Nat.strong_induction_on with
  | _ n ih =>
    intro acc z
    by_cases h : n < 10
    · have e : natDigits n = [digitChar n] := by
        unfold natDigits
        rw [natDigitsRev, dif_pos h]
        rfl
      rw [e]
      simp only [List.cons_append, List.nil_append, parseNatAux,
        isDig_digitChar n h, if_true, List.length_singleton]
      congr 1
      rw [digitChar_toNat n h, pow_one]
      omega
    · have e : natDigits n = natDigits (n / 10) ++ [digitChar (n % 10)] := by
        unfold natDigits
        conv_lhs => rw [natDigitsRev]
        rw [dif_neg h]
        simp
      rw [e, List.append_assoc, List.singleton_append]
      rw [ih (n / 10) (by omega)]
      simp only [parseNatAux, isDig_digitChar (n % 10) (by omega), if_true]
      rw [digitChar_toNat (n % 10) (by omega)]
      congr 1
      rw [List.length_append, List.length_singleton, pow_succ, ← mul_assoc]
      omega

theorem parseNatAux_stop : ∀ acc z,
    (z = [] ∨ ∃ c r, z = c :: r ∧ isDig c = false) →
    parseNatAux acc z = (acc, z) := by
  intro acc z h
  rcases h with rfl | ⟨c, r, rfl, hc⟩
  · rfl
  · simp [parseNatAux, hc]

theorem parseNat_natDigits : ∀ n z,
    (z = [] ∨ ∃ c r, z = c :: r ∧ isDig c = false) →
    parseNat (natDigits n ++ z) = some (n, z) := by
  intro n z hz
  obtain ⟨c, tl, e, hd⟩ := natDigits_cons n
  rw [e, List.cons_append]
  simp only [parseNat, hd, if_true]
  rw [← List.cons_append, ← e, parseNatAux_digits n 0 z]
  simp only [Nat.zero_mul, Nat.zero_add]
  rw [parseNatAux_stop n z hz]

theorem parseInt_intRepr : ∀ i z,
    (z = [] ∨ ∃ c r, z = c :: r ∧ isDig c = false) →
    parseInt (intRepr i ++ z) = some (i, z) := by
  intro i z hz
  by_cases hneg : i < 0
  · simp only [intRepr, hneg, if_true, List.cons_append]
    unfold parseInt
    rw [if_pos (by simp)]
    simp only [List.tail_cons]
    rw [parseNat_natDigits _ z hz]
    simp only [Option.map_some']
    have : -(((-i).toNat : Nat) : Int) = i := by omega
    rw [this]
  · simp only [intRepr, hneg, if_false]
    obtain ⟨c, tl, e, hd⟩ := natDigits_cons i.toNat
    rw [e, List.cons_append]
    unfold parseInt
    rw [if_neg (by
      simp only [List.head?_cons, Option.some.injEq]
      intro hcon
      rw [hcon] at hd
      exact absurd hd (by decide))]
    rw [← List.cons_append, ← e, parseNat_natDigits _ z hz]
    simp only [Option.map_some']
    have : ((i.toNat : Nat) : Int) = i := by omega
    rw [this]


theorem safe_ne_qc : ∀ c, jsonSafeChar c = true → c ≠ qc := by
  intro c hc
  simp only [jsonSafeChar, Bool.and_eq_true, Bool.not_eq_true',
    decide_eq_false_iff_not] at hc
  exact hc.1.2

theorem safe_lt : ∀ c, jsonSafeChar c = true → c.toNat < 256 := by
  intro c hc
  simp only [jsonSafeChar, Bool.and_eq_true, decide_eq_true_eq] at hc
  omega

theorem scanStr_safe : ∀ (s : List Char), s.all jsonSafeChar = true →
    ∀ z, scanStr (s ++ qc :: z) = some (s, z) := by
  intro s
  induction s with
  | nil =>
    intro _ z
    simp [scanStr]
  | cons c rest ih =>
    intro hs z
    simp only [List.all_cons, Bool.and_eq_true] at hs
    simp [scanStr, safe_ne_qc c hs.1, ih hs.2 z]

theorem parseJStr_qstr : ∀ (s : List Char), s.all jsonSafeChar = true →
    ∀ z, parseJStr (qstr s ++ z) = some (s, z) := by
  intro s hs z
  have e : qstr s ++ z = qc :: (s ++ qc :: z) := by simp [qstr]
  rw [e]
  simp only [parseJStr, if_true]
  exact scanStr_safe s hs z

theorem parseLit_self : ∀ (pat z : List Char), parseLit pat (pat ++ z) = some z := by
  intro pat z
  have hp : pat.isPrefixOf (pat ++ z) = true :=
    List.isPrefixOf_iff_prefix.mpr (List.prefix_append pat z)
  simp [parseLit, hp]

theorem mk_data_eq : ∀ (s : String), String.mk s.data = s := by
  intro s
  cases s
  rfl

theorem parseOptStr_ser : ∀ (o : Option String), strWfOpt o = true →
    ∀ z, parseOptStr (serOptStr o ++ z) = some (o, z) := by
  intro o ho z
  cases o with
  | none =>
    show parseOptStr (("null".data) ++ z) = some (none, z)
    have h1 : (("null".data) ++ z).head? = some 'n' := by rfl
    simp only [parseOptStr]
    rw [if_pos h1, parseLit_self]
    rfl
  | some s =>
    show parseOptStr ((qstr s.data) ++ z) = some (some s, z)
    have h1 : ((qstr s.data) ++ z).head? = some qc := by
      rw [qstr, List.cons_append]
      rfl
    have h2 : ¬ (((qstr s.data) ++ z).head? = some 'n') := by
      intro hcon
      rw [h1] at hcon
      exact absurd (Option.some.inj hcon) (by decide)
    simp only [strWfOpt] at ho
    simp only [parseOptStr]
    rw [if_neg h2, parseJStr_qstr s.data ho z]
    simp only [Option.map_some', mk_data_eq]

theorem parseBool_ser : ∀ (b : Bool) z, parseBool (serBool b ++ z) = some (b, z) := by
  intro b z
  cases b with
  | true =>
    show parseBool (("true".data) ++ z) = some (true, z)
    have h1 : (("true".data) ++ z).head? = some 't' := by rfl
    simp only [parseBool]
    rw [if_pos h1, parseLit_self]
    rfl
  | false =>
    show parseBool (("false".data) ++ z) = some (false, z)
    have h1 : ¬ ((("false".data) ++ z).head? = some 't') := by
      intro hcon
      exact absurd (Option.some.inj hcon) (by decide)
    simp only [parseBool]
    rw [if_neg h1, parseLit_self]
    rfl


theorem intRepr_cons : ∀ i, ∃ c tl, intRepr i = c :: tl ∧ (c = '-' ∨ isDig c = true) := by
  intro i
  by_cases h : i < 0
  · exact ⟨'-', natDigits (-i).toNat, by simp [intRepr, h], Or.inl rfl⟩
  · obtain ⟨c, tl, e, hd⟩ := natDigits_cons i.toNat
    exact ⟨c, tl, by simp [intRepr, h, e], Or.inr hd⟩

theorem headDigit_ne : ∀ (c d : Char), (c = '-' ∨ isDig c = true) → 58 ≤ d.toNat →
    c ≠ d := by
  rintro c d (rfl | h) hd hcon
  · rw [← hcon] at hd
    exact absurd hd (by decide)
  · rw [hcon] at h
    simp only [isDig, Bool.and_eq_true, decide_eq_true_eq] at h
    omega

theorem serInts_length : ∀ (l : List Int), l.length ≤ (serInts l).length := by
  intro l
  induction l with
  | nil => simp [serInts]
  | cons i rest ih =>
    cases rest with
    | nil => simp [serInts]
    | cons j r2 =>
      simp only [serInts, List.length_append, List.length_cons] at ih ⊢
      omega

theorem parseIntsF_ser : ∀ (is : List Int) (fuel : Nat) z, is.length < fuel →
    parseIntsF fuel (serInts is ++ z) = some (is, z) := by
  intro is
  induction is with
  | nil =>
    intro fuel z hf
    obtain ⟨f, rfl⟩ : ∃ f, fuel = f + 1 := ⟨fuel - 1, by omega⟩
    simp [serInts, parseIntsF]
  | cons i rest ih =>
    intro fuel z hf
    obtain ⟨f, rfl⟩ : ∃ f, fuel = f + 1 := ⟨fuel - 1, by omega⟩
    obtain ⟨c, tl, e, hc⟩ := intRepr_cons i
    cases rest with
    | nil =>
      have hsh : serInts [i] ++ z = intRepr i ++ (']' :: z) := by
        simp [serInts]
      rw [hsh]
      simp only [parseIntsF]
      rw [if_neg (by
        rw [e, List.cons_append, List.head?_cons]
        intro hcon
        exact absurd (Option.some.inj hcon) (headDigit_ne c ']' hc (by decide)))]
      rw [parseInt_intRepr i (']' :: z) (Or.inr ⟨']', z, rfl, by decide⟩)]
      rfl
    | cons j r2 =>
      have hsh : serInts (i :: j :: r2) ++ z
          = intRepr i ++ (',' :: ' ' :: (serInts (j :: r2) ++ z)) := by
        simp [serInts]
      rw [hsh]
      simp only [parseIntsF]
      rw [if_neg (by
        rw [e, List.cons_append, List.head?_cons]
        intro hcon
        exact absurd (Option.some.inj hcon) (headDigit_ne c ']' hc (by decide)))]
      rw [parseInt_intRepr i _ (Or.inr ⟨',', _, rfl, by decide⟩)]
      have hr : (j :: r2).length < f := by
        simp only [List.length_cons] at hf ⊢
        omega
      show Option.map (fun p => ((i :: p.1 : List Int), (p.2 : List Char)))
        (parseIntsF f (serInts (j :: r2) ++ z)) = some (i :: j :: r2, z)
      rw [ih f z hr]
      rfl

theorem parseVal_ser : ∀ (v : FilterVal), v.wf = true → ∀ z,
    parseVal (serVal v ++ z) = some (v, z) := by
  intro v hv z
  cases v with
  | ints l =>
    have hsh : serVal (.ints l) ++ z = '[' :: (serInts l ++ z) := by
      simp [serVal]
    rw [hsh]
    have hp : (('[' : Char) :: (serInts l ++ z)).head? = some '[' := rfl
    simp only [parseVal]
    rw [if_pos hp]
    simp only [List.length_cons, List.tail_cons]
    rw [parseIntsF_ser l ((serInts l ++ z).length + 1) z (by
      have := serInts_length l
      simp only [List.length_append]
      omega)]
    rfl
  | str s =>
    have hsh : serVal (.str s) ++ z = qstr s.data ++ z := by
      simp [serVal]
    rw [hsh]
    have hne : ¬ ((qstr s.data ++ z).head? = some '[') := by
      rw [qstr, List.cons_append, List.head?_cons]
      intro hcon
      exact absurd (Option.some.inj hcon) (by decide)
    simp only [FilterVal.wf] at hv
    simp only [parseVal]
    rw [if_neg hne, parseJStr_qstr s.data hv z]
    simp only [Option.map_some', mk_data_eq]


theorem serEntries_length : ∀ (es : List (String × FilterVal)),
    es.length < (serEntries es).length := by
  intro es
  induction es with
  | nil => simp [serEntries]
  | cons kv rest ih =>
    cases rest with
    | nil =>
      simp [serEntries, serEntry, qstr, List.length_append]
    | cons kv2 r2 =>
      simp only [serEntries, List.length_append, List.length_cons] at ih ⊢
      omega

theorem parseEntriesF_ser : ∀ (es : List (String × FilterVal)) (fuel : Nat) z,
    es.length < fuel →
    es.all (fun kv => kv.1.data.all jsonSafeChar && kv.2.wf) = true →
    parseEntriesF fuel (serEntries es ++ z) = some (es, z) := by
  intro es
  induction es with
  | nil =>
    intro fuel z hf _
    obtain ⟨f, rfl⟩ : ∃ f, fuel = f + 1 := ⟨fuel - 1, by omega⟩
    simp [serEntries, parseEntriesF]
  | cons kv rest ih =>
    intro fuel z hf hwf
    obtain ⟨f, rfl⟩ : ∃ f, fuel = f + 1 := ⟨fuel - 1, by omega⟩
    simp only [List.all_cons, Bool.and_eq_true] at hwf
    obtain ⟨⟨hk, hv⟩, hwfr⟩ := hwf
    cases rest with
    | nil =>
      have hsh : serEntries [kv] ++ z
          = qstr kv.1.data ++ (':' :: ' ' :: (serVal kv.2 ++ (rb :: z))) := by
        simp [serEntries, serEntry]
      rw [hsh]
      have hne : ¬ ((qstr kv.1.data ++ (':' :: ' ' :: (serVal kv.2 ++ (rb :: z)))).head?
          = some rb) := by
        rw [qstr, List.cons_append, List.head?_cons]
        intro hcon
        exact absurd (Option.some.inj hcon) (by decide)
      have hJ := parseJStr_qstr kv.1.data hk (':' :: ' ' :: (serVal kv.2 ++ (rb :: z)))
      have hL : parseLit [':', ' '] (':' :: ' ' :: (serVal kv.2 ++ (rb :: z)))
          = some (serVal kv.2 ++ (rb :: z)) := parseLit_self [':', ' '] _
      have hV := parseVal_ser kv.2 hv (rb :: z)
      simp only [parseEntriesF]
      rw [if_neg hne]
      simp only [hJ, hL, hV, Option.map_some', mk_data_eq]
      rfl
    | cons kv2 r2 =>
      have hsh : serEntries (kv :: kv2 :: r2) ++ z
          = qstr kv.1.data ++
              (':' :: ' ' :: (serVal kv.2 ++
                (',' :: ' ' :: (serEntries (kv2 :: r2) ++ z)))) := by
        simp [serEntries, serEntry]
      rw [hsh]
      have hne : ¬ ((qstr kv.1.data ++
          (':' :: ' ' :: (serVal kv.2 ++
            (',' :: ' ' :: (serEntries (kv2 :: r2) ++ z))))).head? = some rb) := by
        rw [qstr, List.cons_append, List.head?_cons]
        intro hcon
        exact absurd (Option.some.inj hcon) (by decide)
      have hJ := parseJStr_qstr kv.1.data hk
        (':' :: ' ' :: (serVal kv.2 ++ (',' :: ' ' :: (serEntries (kv2 :: r2) ++ z))))
      have hL : parseLit [':', ' ']
            (':' :: ' ' :: (serVal kv.2 ++ (',' :: ' ' :: (serEntries (kv2 :: r2) ++ z))))
          = some (serVal kv.2 ++ (',' :: ' ' :: (serEntries (kv2 :: r2) ++ z))) :=
        parseLit_self [':', ' '] _
      have hV := parseVal_ser kv.2 hv (',' :: ' ' :: (serEntries (kv2 :: r2) ++ z))
      have hr : (kv2 :: r2).length < f := by
        simp only [List.length_cons] at hf ⊢
        omega
      have hIH := ih f z hr hwfr
      simp only [parseEntriesF]
      rw [if_neg hne]
      simp only [hJ, hL, hV]
      show Option.map (fun p => ((String.mk kv.1.data, kv.2) :: p.1, p.2))
        (parseEntriesF f (serEntries (kv2 :: r2) ++ z)) = some (kv :: kv2 :: r2, z)
      rw [hIH, mk_data_eq]
      rfl


theorem parseSpec_dumpSpec : ∀ (sp : FilterSpec), sp.wf = true →
    parseSpec (dumpSpec sp) = some sp := by
  intro sp hwf
  simp only [FilterSpec.wf, Bool.and_eq_true] at hwf
  obtain ⟨⟨⟨hfil, hsort⟩, hkw⟩, hss⟩ := hwf
  have hd : dumpSpec sp = K1 ++ (serEntries sp.filtering ++ (K2 ++ (serOptStr sp.sorting ++ (K3 ++ (serBool sp.sortreverse ++ (K4 ++ (serOptStr sp.keyword ++ (K5 ++ (serOptStr sp.search_string ++ [rb]))))))))) := by
    simp only [dumpSpec, List.append_assoc]
  have h1 : parseLit K1 (dumpSpec sp) = some (serEntries sp.filtering ++ (K2 ++ (serOptStr sp.sorting ++ (K3 ++ (serBool sp.sortreverse ++ (K4 ++ (serOptStr sp.keyword ++ (K5 ++ (serOptStr sp.search_string ++ [rb]))))))))) := by
    rw [hd]
    exact parseLit_self K1 _
  have h2 : parseEntriesF (serEntries sp.filtering ++ (K2 ++ (serOptStr sp.sorting ++ (K3 ++ (serBool sp.sortreverse ++ (K4 ++ (serOptStr sp.keyword ++ (K5 ++ (serOptStr sp.search_string ++ [rb]))))))))).length (serEntries sp.filtering ++ (K2 ++ (serOptStr sp.sorting ++ (K3 ++ (serBool sp.sortreverse ++ (K4 ++ (serOptStr sp.keyword ++ (K5 ++ (serOptStr sp.search_string ++ [rb]))))))))) = some (sp.filtering, K2 ++ (serOptStr sp.sorting ++ (K3 ++ (serBool sp.sortreverse ++ (K4 ++ (serOptStr sp.keyword ++ (K5 ++ (serOptStr sp.search_string ++ [rb])))))))) :=
    parseEntriesF_ser sp.filtering _ _ (by
      have := serEntries_length sp.filtering
      simp only [List.length_append]
      omega) hfil
  have h3 : parseLit K2 (K2 ++ (serOptStr sp.sorting ++ (K3 ++ (serBool sp.sortreverse ++ (K4 ++ (serOptStr sp.keyword ++ (K5 ++ (serOptStr sp.search_string ++ [rb])))))))) = some (serOptStr sp.sorting ++ (K3 ++ (serBool sp.sortreverse ++ (K4 ++ (serOptStr sp.keyword ++ (K5 ++ (serOptStr sp.search_string ++ [rb]))))))) := parseLit_self K2 _
  have h4 : parseOptStr (serOptStr sp.sorting ++ (K3 ++ (serBool sp.sortreverse ++ (K4 ++ (serOptStr sp.keyword ++ (K5 ++ (serOptStr sp.search_string ++ [rb]))))))) = some (sp.sorting, K3 ++ (serBool sp.sortreverse ++ (K4 ++ (serOptStr sp.keyword ++ (K5 ++ (serOptStr sp.search_string ++ [rb])))))) :=
    parseOptStr_ser sp.sorting hsort _
  have h5 : parseLit K3 (K3 ++ (serBool sp.sortreverse ++ (K4 ++ (serOptStr sp.keyword ++ (K5 ++ (serOptStr sp.search_string ++ [rb])))))) = some (serBool sp.sortreverse ++ (K4 ++ (serOptStr sp.keyword ++ (K5 ++ (serOptStr sp.search_string ++ [rb]))))) := parseLit_self K3 _
  have h6 : parseBool (serBool sp.sortreverse ++ (K4 ++ (serOptStr sp.keyword ++ (K5 ++ (serOptStr sp.search_string ++ [rb]))))) = some (sp.sortreverse, K4 ++ (serOptStr sp.keyword ++ (K5 ++ (serOptStr sp.search_string ++ [rb])))) :=
    parseBool_ser sp.sortreverse _
  have h7 : parseLit K4 (K4 ++ (serOptStr sp.keyword ++ (K5 ++ (serOptStr sp.search_string ++ [rb])))) = some (serOptStr sp.keyword ++ (K5 ++ (serOptStr sp.search_string ++ [rb]))) := parseLit_self K4 _
  have h8 : parseOptStr (serOptStr sp.keyword ++ (K5 ++ (serOptStr sp.search_string ++ [rb]))) = some (sp.keyword, K5 ++ (serOptStr sp.search_string ++ [rb])) :=
    parseOptStr_ser sp.keyword hkw _
  have h9 : parseLit K5 (K5 ++ (serOptStr sp.search_string ++ [rb])) = some (serOptStr sp.search_string ++ [rb]) := parseLit_self K5 _
  have h10 : parseOptStr (serOptStr sp.search_string ++ [rb]) = some (sp.search_string, [rb]) :=
    parseOptStr_ser sp.search_string hss _
  simp only [parseSpec, h1, h2, h3, h4, h5, h6, h7, h8, h9, h10]
  rfl


theorem mem_natDigits_lt : ∀ n c, c ∈ natDigits n → c.toNat < 256 := by
  intro n c hc
  rw [natDigits, List.mem_reverse] at hc
  obtain ⟨d, hd, rfl⟩ := natDigitsRev_all n c hc
  rw [digitChar_toNat d hd]
  omega

theorem mem_intRepr_lt : ∀ i c, c ∈ intRepr i → c.toNat < 256 := by
  intro i c hc
  by_cases h : i < 0
  · simp only [intRepr, h, if_true, List.mem_cons] at hc
    rcases hc with rfl | hc
    · decide
    · exact mem_natDigits_lt _ c hc
  · simp only [intRepr, h, if_false] at hc
    exact mem_natDigits_lt _ c hc

theorem mem_serInts_lt : ∀ (l : List Int) c, c ∈ serInts l → c.toNat < 256 := by
  intro l
  induction l with
  | nil =>
    intro c hc
    simp only [serInts, List.mem_singleton] at hc
    subst hc
    decide
  | cons i rest ih =>
    intro c hc
    cases rest with
    | nil =>
      simp only [serInts, List.mem_append, List.mem_singleton] at hc
      rcases hc with hc | rfl
      · exact mem_intRepr_lt i c hc
      · decide
    | cons j r2 =>
      simp only [serInts, List.mem_append, List.mem_cons] at hc
      rcases hc with hc | rfl | rfl | hc
      · exact mem_intRepr_lt i c hc
      · decide
      · decide
      · exact ih c hc

theorem mem_qstr : ∀ (s : List Char) c, c ∈ qstr s → c = qc ∨ c ∈ s := by
  intro s c hc
  simp only [qstr, List.mem_cons, List.mem_append, List.mem_singleton] at hc
  tauto

theorem mem_serVal_lt : ∀ (v : FilterVal), v.wf = true →
    ∀ c, c ∈ serVal v → c.toNat < 256 := by
  intro v hv c hc
  cases v with
  | ints l =>
    simp only [serVal, List.mem_cons] at hc
    rcases hc with rfl | hc
    · decide
    · exact mem_serInts_lt l c hc
  | str t =>
    simp only [serVal] at hc
    rcases mem_qstr t.data c hc with rfl | hc
    · decide
    · simp only [FilterVal.wf, List.all_eq_true] at hv
      exact safe_lt c (hv c hc)

theorem mem_serEntry_lt : ∀ (kv : String × FilterVal),
    kv.1.data.all jsonSafeChar = true ∧ kv.2.wf = true →
    ∀ c, c ∈ serEntry kv → c.toNat < 256 := by
  intro kv hkv c hc
  simp only [serEntry, List.mem_append, List.mem_cons] at hc
  rcases hc with hc | rfl | rfl | hc
  · rcases mem_qstr kv.1.data c hc with rfl | hc
    · decide
    · simp only [List.all_eq_true] at hkv
      exact safe_lt c (hkv.1 c hc)
  · decide
  · decide
  · exact mem_serVal_lt kv.2 hkv.2 c hc

theorem mem_serEntries_lt : ∀ (es : List (String × FilterVal)),
    es.all (fun kv => kv.1.data.all jsonSafeChar && kv.2.wf) = true →
    ∀ c, c ∈ serEntries es → c.toNat < 256 := by
  intro es
  induction es with
  | nil =>
    intro _ c hc
    simp only [serEntries, List.mem_singleton] at hc
    subst hc
    decide
  | cons kv rest ih =>
    intro hes c hc
    simp only [List.all_cons, Bool.and_eq_true] at hes
    cases rest with
    | nil =>
      simp only [serEntries, List.mem_append, List.mem_singleton] at hc
      rcases hc with hc | rfl
      · exact mem_serEntry_lt kv hes.1 c hc
      · decide
    | cons kv2 r2 =>
      simp only [serEntries, List.mem_append, List.mem_cons] at hc
      rcases hc with hc | rfl | rfl | hc
      · exact mem_serEntry_lt kv hes.1 c hc
      · decide
      · decide
      · exact ih hes.2 c hc

theorem mem_serOptStr_lt : ∀ (o : Option String), strWfOpt o = true →
    ∀ c, c ∈ serOptStr o → c.toNat < 256 := by
  intro o ho c hc
  cases o with
  | none =>
    simp only [serOptStr] at hc
    exact (show ∀ x ∈ ("null".data), x.toNat < 256 by decide) c hc
  | some t =>
    simp only [serOptStr] at hc
    rcases mem_qstr t.data c hc with rfl | hc
    · decide
    · simp only [strWfOpt, List.all_eq_true] at ho
      exact safe_lt c (ho c hc)

theorem mem_serBool_lt : ∀ (b : Bool) c, c ∈ serBool b → c.toNat < 256 := by
  intro b
  cases b <;> decide

theorem mem_dumpSpec_lt : ∀ (sp : FilterSpec), sp.wf = true →
    ∀ c, c ∈ dumpSpec sp → c.toNat < 256 := by
  intro sp hwf c hc
  simp only [FilterSpec.wf, Bool.and_eq_true] at hwf
  obtain ⟨⟨⟨hfil, hsort⟩, hkw⟩, hss⟩ := hwf
  simp only [dumpSpec, List.mem_append] at hc
  rcases hc with ((((((((((hc | hc) | hc) | hc) | hc) | hc) | hc) | hc) | hc) | hc) | hc)
  · exact (show ∀ x ∈ K1, x.toNat < 256 by decide) c hc
  · exact mem_serEntries_lt sp.filtering hfil c hc
  · exact (show ∀ x ∈ K2, x.toNat < 256 by decide) c hc
  · exact mem_serOptStr_lt sp.sorting hsort c hc
  · exact (show ∀ x ∈ K3, x.toNat < 256 by decide) c hc
  · exact mem_serBool_lt sp.sortreverse c hc
  · exact (show ∀ x ∈ K4, x.toNat < 256 by decide) c hc
  · exact mem_serOptStr_lt sp.keyword hkw c hc
  · exact (show ∀ x ∈ K5, x.toNat < 256 by decide) c hc
  · exact mem_serOptStr_lt sp.search_string hss c hc
  · exact (show ∀ x ∈ [rb], x.toNat < 256 by decide) c hc

theorem map_ofNat_toNat : ∀ (l : List Char), (l.map Char.toNat).map Char.ofNat = l := by
  intro l
  induction l with
  | nil => rfl
  | cons c rest ih =>
    simp only [List.map_cons, ih, List.cons.injEq, and_true]
    exact Char.ofNat_toNat c

theorem lstrip_noop : ∀ (c : Char) rest, ¬(c = 'b' ∨ c = bsc ∨ c = apos) →
    lstripLegacy (c :: rest) = c :: rest := by
  intro c rest hne
  simp [lstripLegacy, hne]

theorem b64e_cons_head : ∀ b (bs : List Nat), ∃ t, b64e (b :: bs) = b64Char (b / 4) :: t := by
  intro b bs
  rcases bs with _ | ⟨b2, _ | ⟨b3, rest⟩⟩ <;> exact ⟨_, rfl⟩


/-- C9.  Saved-query round-trip: encoding a well-formed filter specification
(JSON dump then base64) and decoding it back through the stored-query path
yields the same specification; and the legacy pickled artifact (a stored
string carrying the b-prefix quoting) fails to decode, answering the caught
ValueError that redirects to the default list instead of raising. -/
theorem C9_saved_query (sp : FilterSpec) (h : sp.wf = true) :
    loadSavedQuery (saveQuery sp) = some sp ∧
    loadSavedQuery ['b', apos, 'g', 'A', 'R', '9', apos] = none := by
  refine ⟨?_, by decide⟩
  unfold loadSavedQuery saveQuery
  obtain ⟨u, hu⟩ : ∃ u, dumpSpec sp = lb :: u := by
    simp only [dumpSpec, K1, List.cons_append]
    exact ⟨_, rfl⟩
  have hl : lstripLegacy (b64e ((dumpSpec sp).map Char.toNat))
      = b64e ((dumpSpec sp).map Char.toNat) := by
    rw [hu, List.map_cons]
    obtain ⟨t2, ht2⟩ := b64e_cons_head (Char.toNat lb) (u.map Char.toNat)
    rw [ht2, show b64Char (Char.toNat lb / 4) = 'e' from by decide]
    exact lstrip_noop 'e' t2 (by decide)
  rw [hl]
  rw [b64_roundtrip ((dumpSpec sp).map Char.toNat) (fun b hb => by
    obtain ⟨c, hc, rfl⟩ := List.mem_map.mp hb
    exact mem_dumpSpec_lt sp h c hc)]
  simp only [Option.some_bind]
  rw [map_ofNat_toNat]
  exact parseSpec_dumpSpec sp h

theorem C9_witness :
    FilterSpec.wf ⟨[("status__in", FilterVal.ints [1, 2, 3]),
        ("created__gte", FilterVal.str "2024-01-01")],
      some "created", true, none, some "printer"⟩ = true ∧
    (loadSavedQuery (saveQuery ⟨[("status__in", FilterVal.ints [1, 2, 3]),
        ("created__gte", FilterVal.str "2024-01-01")],
      some "created", true, none, some "printer"⟩)
        = some ⟨[("status__in", FilterVal.ints [1, 2, 3]),
        ("created__gte", FilterVal.str "2024-01-01")],
      some "created", true, none, some "printer"⟩ ∧
      loadSavedQuery ['b', apos, 'g', 'A', 'R', '9', apos] = none) :=
  ⟨by decide, C9_saved_query _ (by decide)⟩

end Helpdesk
